import Mathlib

/-!
# xsway: workspace resolution and command-chain synthesis

A shallow embedding of `main.go`.  Go strings are Lean `String`s (the names
that reach the program are UTF-8 text, on which byte-wise substring search and
splitting on the ASCII byte `:` agree with their character-wise versions);
`int64` values are `Int`; a Go function returning `(value, error)` returns an
`Except`, the value on the error side being the zero value its callers see.
The pointer receiver `*CmdChain` becomes explicit chain passing.
-/

set_option autoImplicit false

namespace X3

/-! ## Data model (types of the go-sway client library) -/

/-- The rectangle `sway.Rect`. -/
structure Rect where
  X : Int
  Y : Int
  Width : Int
  Height : Int
  deriving DecidableEq, Repr

/-- The workspace `sway.Workspace`; `==` on it in Go compares every field. -/
structure Workspace where
  Num : Int
  Name : String
  Visible : Bool
  Focused : Bool
  Urgent : Bool
  Rect : Rect
  Output : String
  deriving DecidableEq, Repr

/-- The fields of `sway.Output` the program reads. -/
structure Output where
  Name : String
  Active : Bool
  CurrentWorkspace : String
  Rect : Rect
  deriving DecidableEq, Repr

/-- The zero value `sway.Rect{}`. -/
def Rect.zero : Rect := ⟨0, 0, 0, 0⟩

/-- The zero value `sway.Workspace{}`. -/
def Workspace.zero : Workspace :=
  { Num := 0, Name := "", Visible := false, Focused := false, Urgent := false,
    Rect := Rect.zero, Output := "" }

/-- The error values of the program. -/
inductive Err where
  | ErrWorkspaceNotFound
  | ErrArgParseFailed
  deriving DecidableEq, Repr

/-- The text of an error, as `%s` prints it. -/
def Err.Error : Err → String
  | .ErrWorkspaceNotFound => "No workspace found"
  | .ErrArgParseFailed => "Failed to parse args"

/-- The value of a `(value, error)` result whose error is ignored: on error the
functions below return the zero workspace. -/
def valueOf : Except Err Workspace → Workspace
  | .ok ws => ws
  | .error _ => Workspace.zero

/-! ## Standard-library functions used by the program -/

/-- Whether `p` is a prefix of `s`. -/
def hasPrefix : List Char → List Char → Bool
  | [], _ => true
  | _ :: _, [] => false
  | a :: p, b :: s => a == b && hasPrefix p s

/-- Substring search on character lists: some suffix of `s` starts with `sub`. -/
def containsChars : List Char → List Char → Bool
  | [], sub => hasPrefix sub []
  | c :: s, sub => hasPrefix sub (c :: s) || containsChars s sub

/-- The function `strings.Contains(s, substr)`. -/
def stringsContains (s substr : String) : Bool :=
  containsChars s.data substr.data

/-- Splitting a character list at every occurrence of the separator `sep`; the
result always has one more piece than there are separators. -/
def splitChars (sep : Char) : List Char → List (List Char)
  | [] => [[]]
  | c :: cs =>
    if c = sep then [] :: splitChars sep cs
    else
      match splitChars sep cs with
      | [] => [[c]]
      | p :: ps => (c :: p) :: ps

/-- The function `strings.Split(s, sep)` for a one-character separator. -/
def stringsSplit (s : String) (sep : Char) : List String :=
  (splitChars sep s.data).map String.mk

/-- The function `strings.Join(elems, sep)`. -/
def stringsJoin (elems : List String) (sep : String) : String :=
  sep.intercalate elems

/-- The digit loop of `strconv.ParseUint` in base 10: the value of a run of
decimal digits, or `none` at the first other character. -/
def parseDigits : List Char → Nat → Option Nat
  | [], acc => some acc
  | c :: cs, acc =>
    if '0' ≤ c ∧ c ≤ '9' then parseDigits cs (acc * 10 + (c.toNat - '0'.toNat))
    else none

/-- The function `strconv.ParseUint(s, 10, bitSize)` up to the kind of error
(`none` for a syntax or a range error). -/
def ParseUint (s : List Char) (bitSize : Nat) : Option Nat :=
  match s with
  | [] => none
  | _ :: _ =>
    match parseDigits s 0 with
    | none => none
    | some n => if n < 2 ^ bitSize then some n else none

/-- The function `strconv.ParseInt(s, 10, bitSize)` up to the kind of error: an
optional sign, then decimal digits, the value within the signed range of
`bitSize` bits. -/
def ParseInt (s : String) (bitSize : Nat) : Option Int :=
  match s.data with
  | [] => none
  | c :: cs =>
    let neg := c == '-'
    let body := if c = '+' ∨ c = '-' then cs else c :: cs
    match ParseUint body bitSize with
    | none => none
    | some un =>
      let cutoff := 2 ^ (bitSize - 1)
      if !neg && un ≥ cutoff then none
      else if neg && un > cutoff then none
      else some (if neg then -(un : Int) else (un : Int))

/-- The function `strconv.Itoa`: the decimal text of an integer. -/
def Itoa : Int → String
  | Int.ofNat m => Nat.repr m
  | Int.negSucc m => "-" ++ Nat.repr (m + 1)

/-! ## The program state -/

/-- The command chain `CmdChain`. -/
abbrev CmdChain := List String

/-- What the compositor answers to the two queries of the client library (an
empty list when the query fails). -/
structure Client where
  workspaces : List Workspace
  outputs : List Output
  deriving Repr

/-- The state `XSway` of one invocation. -/
structure XSway where
  client : Client
  workspaces : List Workspace
  outputs : List Output
  chain : CmdChain
  deriving Repr

/-- The constructor `Init`. -/
def Init (client : Client) : XSway :=
  { client := client, workspaces := client.workspaces, outputs := client.outputs,
    chain := [] }

/-- What an operation leaves behind: the chain it built, the script handed to
`RunCommand` when `RunChain` was reached, and the text written to standard
output. -/
structure Outcome where
  chain : CmdChain
  sent : Option String
  stdout : String
  deriving DecidableEq, Repr

/-- The method `RunChain`: the chain joined with `;` goes to the compositor. -/
def RunChain (chain : CmdChain) (stdout : String) : Outcome :=
  { chain := chain, sent := some (stringsJoin chain ";"), stdout := stdout }

/-- An operation that returns before `RunChain`. -/
def returned (chain : CmdChain) (stdout : String) : Outcome :=
  { chain := chain, sent := none, stdout := stdout }

/-! ## Resolver -/

/-- The loop of `GetWSNum`. -/
def GetWSNum.loop (num : Int) : List Workspace → Except Err Workspace
  | [] => .error .ErrWorkspaceNotFound
  | ws :: rest => if ws.Num = num then .ok ws else GetWSNum.loop num rest

/-- The method `GetWSNum`. -/
def GetWSNum (c : XSway) (num : Int) : Except Err Workspace :=
  GetWSNum.loop num c.workspaces

/-- The loop of `GetWSName`. -/
def GetWSName.loop (name : String) : List Workspace → Except Err Workspace
  | [] => .error .ErrWorkspaceNotFound
  | ws :: rest =>
    if stringsContains ws.Name name then .ok ws else GetWSName.loop name rest

/-- The method `GetWSName`. -/
def GetWSName (c : XSway) (name : String) : Except Err Workspace :=
  GetWSName.loop name c.workspaces

/-- The method `GetWS`. -/
def GetWS (c : XSway) (nameOrNum : String) : Except Err Workspace :=
  match ParseInt nameOrNum 32 with
  | none => GetWSName c nameOrNum
  | some num => GetWSNum c num

/-- The loop of `CurrentWS`. -/
def CurrentWS.loop : List Workspace → Except Err Workspace
  | [] => .error .ErrWorkspaceNotFound
  | ws :: rest => if ws.Focused = true then .ok ws else CurrentWS.loop rest

/-- The method `CurrentWS`. -/
def CurrentWS (c : XSway) : Except Err Workspace :=
  CurrentWS.loop c.workspaces

/-- The loop of `OutputWS`. -/
def OutputWS.loop (output : String) : List Workspace → Except Err Workspace
  | [] => .error .ErrWorkspaceNotFound
  | ws :: rest =>
    if ws.Visible = true ∧ ws.Output = output then .ok ws else OutputWS.loop output rest

/-- The method `OutputWS`. -/
def OutputWS (c : XSway) (output : String) : Except Err Workspace :=
  OutputWS.loop output c.workspaces

/-- The method `ActiveOutputs`: it queries the outputs again and keeps the
active ones. -/
def ActiveOutputs (c : XSway) : List Output :=
  c.client.outputs.filter (fun o => o.Active)

/-! ## Command chain -/

/-- The method `CmdChain.Add`. -/
def CmdChain.Add (c : CmdChain) (cmd : String) : CmdChain :=
  c ++ [cmd]

/-- The method `CmdChain.ShowWS`. -/
def CmdChain.ShowWS (c : CmdChain) (ws : Workspace) : CmdChain :=
  c.Add ("workspace " ++ ws.Name)

/-- The method `CmdChain.RenameWS`. -/
def CmdChain.RenameWS (c : CmdChain) (wsName : String) : CmdChain :=
  c.Add ("rename workspace to " ++ wsName)

/-- The method `CmdChain.MoveWSToOuput`. -/
def CmdChain.MoveWSToOuput (c : CmdChain) (output : String) : CmdChain :=
  c.Add ("move workspace to output " ++ output)

/-- The method `CmdChain.FocusOutput`. -/
def CmdChain.FocusOutput (c : CmdChain) (output : String) : CmdChain :=
  c.Add ("focus output " ++ output)

/-- The method `CmdChain.SwapWS`. -/
def CmdChain.SwapWS (c : CmdChain) (ws1 ws2 : Workspace) : CmdChain :=
  let c := c.MoveWSToOuput ws2.Output
  let c := c.ShowWS ws2
  let c := c.MoveWSToOuput ws1.Output
  c.FocusOutput ws1.Output

/-- The method `CmdChain.ShowWSOnOutput`. -/
def CmdChain.ShowWSOnOutput (c : CmdChain) (ws : Workspace) (output : String) : CmdChain :=
  let c := c.ShowWS ws
  if ws.Output ≠ output then c.MoveWSToOuput output else c

/-- The method `CmdChain.MoveContainerToWS`. -/
def CmdChain.MoveContainerToWS (c : CmdChain) (wsName : String) : CmdChain :=
  c.Add ("move container to workspace " ++ wsName)

/-! ## Operations -/

/-- The function `WSName`: the label of a workspace name. -/
def WSName (ws : Workspace) : String :=
  let splitName := stringsSplit ws.Name ':'
  if splitName.length > 1 then splitName.getD 1 "" else ws.Name

/-- The operation `Show`. -/
def Show (client : Client) (wsName : String) : Outcome :=
  let c := Init client
  match GetWS c wsName with
  | .error _ =>
    RunChain (c.chain.ShowWS { Workspace.zero with Name := wsName }) ""
  | .ok targetWS =>
    let currentWS := valueOf (CurrentWS c)
    if currentWS = targetWS then returned c.chain ""
    else
      let chain :=
        if currentWS.Visible && targetWS.Visible then
          c.chain.SwapWS currentWS targetWS
        else
          let ch := c.chain.ShowWSOnOutput targetWS currentWS.Output
          let ch := ch.ShowWS currentWS
          ch.ShowWS targetWS
      RunChain (chain.FocusOutput currentWS.Output) ""

/-- The element `outputs[i]` of a slice already known to hold it. -/
def outputAt (outputs : List Output) (i : Nat) : Output :=
  outputs.getD i { Name := "", Active := false, CurrentWorkspace := "", Rect := Rect.zero }

/-- The operation `Swap`. -/
def Swap (client : Client) : Outcome :=
  let c := Init client
  let outputs := ActiveOutputs c
  if outputs.length ≠ 2 then returned c.chain ""
  else
    let ws1 := valueOf (GetWS c (outputAt outputs 0).CurrentWorkspace)
    let ws2 := valueOf (GetWS c (outputAt outputs 1).CurrentWorkspace)
    let chain :=
      if ws1.Focused then c.chain.SwapWS ws1 ws2 else c.chain.SwapWS ws2 ws1
    RunChain chain ""

/-- The operation `Rename`. -/
def Rename (client : Client) (wsName : String) : Outcome :=
  let c := Init client
  let ws := valueOf (CurrentWS c)
  let wsName := if ws.Num ≠ -1 then Itoa ws.Num ++ ":" ++ wsName else wsName
  RunChain (c.chain.RenameWS wsName) ""

/-- The operation `Bind`. -/
def Bind (client : Client) (wsNum : String) : Outcome :=
  let c := Init client
  let currentWS := valueOf (CurrentWS c)
  let currentName := WSName currentWS
  let currentNum := Itoa currentWS.Num
  if currentNum = wsNum then returned c.chain ""
  else
    let (chain, stdout) :=
      match GetWS c wsNum with
      | .ok otherWS =>
        let otherName := WSName otherWS
        let ch := c.chain.ShowWS otherWS
        let ch :=
          if currentNum ≠ "-1" then ch.RenameWS (currentNum ++ ":" ++ otherName)
          else ch.RenameWS otherName
        let ch :=
          if otherWS.Output ≠ currentWS.Output then
            match OutputWS c otherWS.Output with
            | .ok otherOutputWS =>
              if otherOutputWS ≠ otherWS then ch.ShowWS otherOutputWS else ch
            | .error _ => ch
          else ch
        (ch.ShowWS currentWS, "")
      | .error err => (c.chain, err.Error ++ "\n")
    let chain := chain.RenameWS (wsNum ++ ":" ++ currentName)
    RunChain (chain.FocusOutput currentWS.Output) stdout

/-- The operation `Move`. -/
def Move (client : Client) (wsName : String) : Outcome :=
  let c := Init client
  match GetWS c wsName with
  | .error _ => RunChain (c.chain.MoveContainerToWS wsName) ""
  | .ok ws => RunChain (c.chain.MoveContainerToWS ws.Name) ""

/-! ## Sorting (packages `sort` and `slices`) -/

/-- The inner loop of `insertionSort`: the element `x` moves left past each left
neighbour it is less than; `left` holds the elements to its left, the nearest
first, and so does the result, `x` included. -/
def sink {α : Type} (less : α → α → Bool) (x : α) : List α → List α
  | [] => [x]
  | y :: ys => if less x y then y :: sink less x ys else x :: y :: ys

/-- The function `insertionSort` of the packages `sort` and `slices`, to which
`sort.Sort` and `slices.SortFunc` hand every slice of at most twelve elements:
the elements are taken from left to right and each one is sunk into the part
already sorted. -/
def insertionSort {α : Type} (less : α → α → Bool) (data : List α) : List α :=
  (data.foldl (fun left x => sink less x left) []).reverse

/-- A strict weak ordering, which the two packages require of a comparison:
nothing is less than itself, and both "less" and "not less" are transitive. -/
def StrictWeak {α : Type} (less : α → α → Bool) : Prop :=
  (∀ a, less a a = false) ∧
    (∀ a b c, less a b = true → less b c = true → less a c = true) ∧
    (∀ a b c, less a b = false → less b c = false → less a c = false)

/-- What `pdqsort` makes of a slice of more than twelve elements. Its steps
(pivot choice, partition, heap sort) are not spelled out here and it is not
stable, so it is taken as given with the contract of the packages: it only
exchanges elements, and under a strict weak ordering no element of the result
is less than an earlier one. -/
structure LongSort where
  run : {α : Type} → (α → α → Bool) → List α → List α
  perm : ∀ {α : Type} (less : α → α → Bool) (data : List α), (run less data).Perm data
  ascending : ∀ {α : Type} (less : α → α → Bool) (data : List α), StrictWeak less →
    (run less data).Pairwise (fun a b => less b a = false)

/-- One sort that meets the contract of `LongSort`, a stable insertion sort; it
serves to run the operations on the sample snapshots, none of which has more
than twelve elements. -/
def stableLong : LongSort where
  run := fun less data => data.insertionSort (fun a b => less b a = false)
  perm := fun less data => List.perm_insertionSort (fun a b => less b a = false) data
  ascending := fun {α} less data h => by
    haveI : IsTotal α (fun a b => less b a = false) :=
      ⟨fun a b => by
        cases hab : less a b
        · exact Or.inr rfl
        · cases hba : less b a
          · exact Or.inl rfl
          · have := h.2.1 a b a hab hba
            rw [h.1 a] at this
            exact absurd this (by simp)⟩
    haveI : IsTrans α (fun a b => less b a = false) :=
      ⟨fun a b c hab hbc => h.2.2 c b a hbc hab⟩
    exact List.sorted_insertionSort (fun a b => less b a = false) data

/-- The function `pdqsort` of the packages `sort` and `slices`: a slice of at
most twelve elements goes to `insertionSort`, a longer one to the steps taken
as given in `long`. -/
def pdqsort {α : Type} (long : LongSort) (less : α → α → Bool) (data : List α) : List α :=
  if data.length ≤ 12 then insertionSort less data else long.run less data

/-- The function `cmp.Compare` on integers. -/
def cmpCompare (x y : Int) : Int :=
  if x < y then -1 else if x > y then 1 else 0

/-- The function `slices.SortFunc`. -/
def slicesSortFunc {α : Type} (long : LongSort) (x : List α) (cmp : α → α → Int) : List α :=
  pdqsort long (fun a b => decide (cmp a b < 0)) x

/-- The comparison of two texts character by character: the first difference
decides, and a proper prefix comes first. -/
def lessChars : List Char → List Char → Bool
  | [], [] => false
  | [], _ :: _ => true
  | _ :: _, [] => false
  | a :: as, b :: bs =>
    if a.toNat < b.toNat then true
    else if b.toNat < a.toNat then false
    else lessChars as bs

/-- The comparison `a < b` of two Go strings. -/
def stringLess (a b : String) : Bool :=
  lessChars a.data b.data

/-- The method `WS.Less`, on the two workspaces at the indices it is given. -/
def WS.Less (wi wj : Workspace) : Bool :=
  if wi.Num ≠ -1 then decide (wi.Num < wj.Num) else stringLess wi.Name wj.Name

/-- The function `sort.Sort` on a slice of workspaces. -/
def sortSort (long : LongSort) (ws : List Workspace) : List Workspace :=
  pdqsort long WS.Less ws

/-! ## Formatted printing (package `fmt`) with a format and no operand -/

/-- The flag characters that may follow a `%`. -/
def skipFlags : List Char → List Char
  | [] => []
  | c :: cs =>
    if c = '#' ∨ c = '0' ∨ c = '+' ∨ c = '-' ∨ c = ' ' then skipFlags cs else c :: cs

/-- The function `parsenum`: it reads decimal digits and returns whether it read
one and what follows them; `none` when the number grows too large, in which
case the caller jumps to the end of its range. -/
def parsenum : List Char → Nat → Bool → Option (Bool × List Char)
  | [], _, isnum => some (isnum, [])
  | c :: cs, num, isnum =>
    if '0' ≤ c ∧ c ≤ '9' then
      if num > 1000000 then none
      else parsenum cs (num * 10 + (c.toNat - '0'.toNat)) true
    else some (isnum, c :: cs)

/-- The function `parsenum` on the rest of the format: whether a number was read
and what follows it. -/
def parsenumToEnd (s : List Char) : Bool × List Char :=
  match parsenum s 0 false with
  | none => (false, [])
  | some r => r

/-- The function `parseArgNumber` on a text that starts with `[`: how many
characters the index takes and whether it is well formed. -/
def parseArgNumber (s : List Char) : Nat × Bool :=
  if s.length < 3 then (1, false)
  else
    let body := s.drop 1
    if ']' ∈ body then
      let seg := body.takeWhile (fun c => c ≠ ']')
      let ok :=
        match parsenum seg 0 false with
        | none => false
        | some (isnum, rest) => isnum && rest.isEmpty
      (seg.length + 2, ok)
    else (1, false)

/-- The method `argNumber` when there is no operand: what follows the argument
index if there is one, whether a well-formed index was found, and whether the
argument number was marked bad (every index is out of range). -/
def argNumber (s : List Char) : List Char × Bool × Bool :=
  match s with
  | '[' :: _ =>
    let r := parseArgNumber s
    (s.drop r.1, r.2, true)
  | _ => (s, false, false)

/-- The state of `doPrintf` inside one verb: the text written for it so far, the
rest of the format, and the variables `afterIndex` and `goodArgNum`. -/
structure Verb where
  out : List Char
  rest : List Char
  afterIndex : Bool
  goodArgNum : Bool
  deriving DecidableEq, Repr

/-- The step `argNum, i, afterIndex = p.argNumber(...)`. -/
def Verb.index (v : Verb) : Verb :=
  let r := argNumber v.rest
  { v with rest := r.1, afterIndex := r.2.1, goodArgNum := v.goodArgNum && !r.2.2 }

/-- The width: a `*` finds no operand and writes `%!(BADWIDTH)`; otherwise digits
are read, and a width after an argument index marks the argument number bad. -/
def Verb.width (v : Verb) : Verb :=
  match v.rest with
  | '*' :: r => { v with out := v.out ++ "%!(BADWIDTH)".data, rest := r, afterIndex := false }
  | _ =>
    let w := parsenumToEnd v.rest
    { v with rest := w.2, goodArgNum := v.goodArgNum && !(v.afterIndex && w.1) }

/-- The precision, after a `.`: an argument index before the dot marks the
argument number bad; a `*` finds no operand and writes `%!(BADPREC)`. -/
def Verb.precision (v : Verb) : Verb :=
  match v.rest with
  | '.' :: r =>
    let v := { v with rest := r, goodArgNum := v.goodArgNum && !v.afterIndex }
    let v := v.index
    match v.rest with
    | '*' :: r => { v with out := v.out ++ "%!(BADPREC)".data, rest := r, afterIndex := false }
    | _ => { v with rest := (parsenumToEnd v.rest).2 }
  | _ => v

/-- The verb itself: none at the end of the format, `%` for a second `%`, and
otherwise the report of a bad index or of a missing operand. -/
def Verb.finish (v : Verb) : List Char × List Char :=
  match v.rest with
  | [] => (v.out ++ "%!(NOVERB)".data, [])
  | verb :: rest =>
    if verb = '%' then (v.out ++ ['%'], rest)
    else if !v.goodArgNum then (v.out ++ "%!".data ++ [verb] ++ "(BADINDEX)".data, rest)
    else (v.out ++ "%!".data ++ [verb] ++ "(MISSING)".data, rest)

/-- One verb of `doPrintf` when there is no operand, from the character after
the `%`: the text written, and the rest of the format (empty when the format
ends before the verb). -/
def doVerb (s : List Char) : List Char × List Char :=
  let v : Verb := { out := [], rest := skipFlags s, afterIndex := false, goodArgNum := true }
  let v := v.index
  let v := v.width
  let v := v.precision
  let v := if !v.afterIndex then v.index else v
  v.finish

/-- The loop of `doPrintf` when there is no operand: text up to a `%` is copied,
then one verb is processed; each round consumes at least one character, which
the first argument counts. -/
def doPrintf : Nat → List Char → List Char
  | 0, _ => []
  | _ + 1, [] => []
  | n + 1, c :: cs =>
    if c ≠ '%' then c :: doPrintf n cs
    else
      let r := doVerb cs
      r.1 ++ doPrintf n r.2

/-- What `fmt.Printf(format)` writes to standard output. -/
def fmtPrintf (format : String) : String :=
  String.mk (doPrintf format.length format.data)

/-- What `fmt.Sprintf` gives for a format made of the plain text `text` followed
by `%s`, and a string operand: the text, then the operand as it is. -/
def fmtSprintf_s (text : String) (operand : String) : String :=
  text ++ operand

/-! ## Directions, orientations and layouts -/

/-- The type `Direction`. -/
abbrev Direction := String

/-- The type `Orientation`. -/
abbrev Orientation := String

/-- The type `Layout`. -/
abbrev Layout := String

/-- The constant `Left`. -/
def Left : Direction := "left"

/-- The constant `Right`. -/
def Right : Direction := "right"

/-- The constant `Up`. -/
def Up : Direction := "up"

/-- The constant `Down`. -/
def Down : Direction := "down"

/-- The constant `Horizontal`. -/
def Horizontal : Orientation := "horizontal"

/-- The constant `Vertical`. -/
def Vertical : Orientation := "vertical"

/-- The constant `Tabbed`. -/
def Tabbed : Layout := "tabbed"

/-- The constant `Stacking`. -/
def Stacking : Layout := "stacking"

/-- The function `inverse`. -/
def inverse (d : Direction) : Direction :=
  if d = Left then Right
  else if d = Right then Left
  else if d = Up then Down
  else if d = Down then Up
  else ""

/-- The method `CmdChain.FocusContainer`. -/
def CmdChain.FocusContainer (c : CmdChain) (d : Direction) : CmdChain :=
  c.Add (fmtSprintf_s "focus " d)

/-- The method `CmdChain.SplitContainer`. -/
def CmdChain.SplitContainer (c : CmdChain) (o : Orientation) : CmdChain :=
  c.Add (fmtSprintf_s "split " o)

/-- The method `CmdChain.MoveContainer`. -/
def CmdChain.MoveContainer (c : CmdChain) (d : Direction) : CmdChain :=
  c.Add (fmtSprintf_s "move " d)

/-- The method `CmdChain.ChangeLayout`. -/
def CmdChain.ChangeLayout (c : CmdChain) (l : Layout) : CmdChain :=
  c.Add (fmtSprintf_s "layout " l)

/-! ## The remaining operations -/

/-- How an operation ends: it returns, or the Go runtime stops the program at a
slice index outside `0 ≤ index < len`. -/
inductive Run where
  | finished (o : Outcome)
  | indexOutOfRange (index : Int) (len : Nat)
  deriving DecidableEq, Repr

/-- The index expression `s[i]` with its bounds check. -/
def sliceAt {α : Type} (s : List α) (i : Int) : Option α :=
  if i < 0 then none else s.get? i.toNat

/-- The comparison `lenCmp` of `FocusOutputHorizontalPosition`. -/
def lenCmp (a b : Output) : Int :=
  cmpCompare a.Rect.X b.Rect.X

/-- The operation `FocusOutputHorizontalPosition`. -/
def FocusOutputHorizontalPosition (long : LongSort) (client : Client) (position : String) :
    Run :=
  let c := Init client
  match ParseInt position 64 with
  | none => .finished (returned c.chain "")
  | some intPos =>
    if (c.outputs.length : Int) ≤ intPos then .finished (returned c.chain "")
    else
      let outputs := slicesSortFunc long c.outputs lenCmp
      match sliceAt outputs intPos with
      | none => .indexOutOfRange intPos outputs.length
      | some o => .finished (RunChain (c.chain.FocusOutput o.Name) "")

/-- The operation `List` of the program (`List` itself names the lists here). -/
def ListNames (long : LongSort) (client : Client) : Outcome :=
  let c := Init client
  let sorted := sortSort long c.workspaces
  let names := sorted.map (fun ws => ws.Name)
  returned c.chain (fmtPrintf (stringsJoin names "\n"))

/-- The operation `Current`. -/
def Current (client : Client) : Outcome :=
  let c := Init client
  let ws := valueOf (CurrentWS c)
  returned c.chain (fmtPrintf (WSName ws))

/-- The operation `Merge`. -/
def Merge (client : Client) (d : Direction) (o : Orientation) (l : Layout) : Outcome :=
  let c := Init client
  let chain := c.chain.FocusContainer d
  let chain := chain.SplitContainer o
  let chain := chain.FocusContainer (inverse d)
  let chain := chain.MoveContainer d
  let chain := chain.ChangeLayout l
  RunChain chain ""

/-- The shape shared by the four lookup loops: the first workspace, in snapshot
order, that passes the test `P`. -/
def firstWhere (P : Workspace → Bool) : List Workspace → Except Err Workspace
  | [] => .error .ErrWorkspaceNotFound
  | ws :: rest => if P ws then .ok ws else firstWhere P rest

/-! ## Sample snapshots -/

/-- A workspace given by the five fields the program reads. -/
def mkWS (num : Int) (name output : String) (visible focused : Bool) : Workspace :=
  { Num := num, Name := name, Visible := visible, Focused := focused, Urgent := false,
    Rect := Rect.zero, Output := output }

/-- An active output showing the workspace `current`. -/
def mkOut (name current : String) (x : Int) : Output :=
  { Name := name, Active := true, CurrentWorkspace := current, Rect := ⟨x, 0, 1920, 1080⟩ }

/-- A two-screen desktop: `1:term` focused on `eDP-1` with `2:web` hidden behind
it, `3:mail` shown on `HDMI-1` with `4:doc` hidden behind it. -/
def deskWorkspaces : List Workspace :=
  [mkWS 1 "1:term" "eDP-1" true true, mkWS 2 "2:web" "eDP-1" false false,
   mkWS 3 "3:mail" "HDMI-1" true false, mkWS 4 "4:doc" "HDMI-1" false false]

/-- The snapshot of the two-screen desktop. -/
def desk : Client :=
  { workspaces := deskWorkspaces,
    outputs := [mkOut "eDP-1" "1:term" 0, mkOut "HDMI-1" "3:mail" 1920] }

/-- A two-screen desktop on which one name is a substring of another: `2:b`
shown on `HDMI-1` with `11:a` hidden behind it, `1:a` focused on `eDP-1`; the
workspaces come output by output and by number within an output. -/
def crowded : Client :=
  { workspaces :=
      [mkWS 2 "2:b" "HDMI-1" true false, mkWS 11 "11:a" "HDMI-1" false false,
       mkWS 1 "1:a" "eDP-1" true true],
    outputs := [mkOut "HDMI-1" "2:b" 0, mkOut "eDP-1" "1:a" 1920] }

/-- An output that is switched off, as the compositor lists it. -/
def mkOff (name : String) : Output :=
  { Name := name, Active := false, CurrentWorkspace := "", Rect := Rect.zero }

/-- A laptop on a dock: the socket `HDMI-1` is switched off, the panel `eDP-1` and
the monitor `DP-1` are active. -/
def docked : Client :=
  { workspaces := [mkWS 1 "1:term" "eDP-1" true true, mkWS 2 "2:web" "DP-1" true false],
    outputs := [mkOff "HDMI-1", mkOut "eDP-1" "1:term" 0, mkOut "DP-1" "2:web" 1920] }

/-- The snapshot of the listing example: `2:web`, the unnumbered `misc`, `1:term`. -/
def mixed : Client :=
  { workspaces :=
      [mkWS 2 "2:web" "eDP-1" true true, mkWS (-1) "misc" "eDP-1" false false,
       mkWS 1 "1:term" "eDP-1" false false],
    outputs := [mkOut "eDP-1" "2:web" 0] }

/-- A desktop whose focused workspace is named `1:100%`. -/
def percent : Client :=
  { workspaces := [mkWS 1 "1:100%" "eDP-1" true true],
    outputs := [mkOut "eDP-1" "1:100%" 0] }

/-! ## The compositor's side of a rename -/

/-- The snapshot the compositor answers once it has run the command
`rename workspace to <name>`: the focused workspace carries the new name, and
so does the output that shows it; `num` is the number the compositor reads
from the new name, which the program does not decide. With no focused
workspace nothing changes. -/
def afterRename (client : Client) (name : String) (num : Int) : Client :=
  match CurrentWS.loop client.workspaces with
  | .error _ => client
  | .ok cur =>
    { workspaces :=
        client.workspaces.map
          (fun ws => if ws = cur then { cur with Name := name, Num := num } else ws),
      outputs :=
        client.outputs.map
          (fun o => if o.Name = cur.Output then { o with CurrentWorkspace := name } else o) }

/-! ## Notions used to state the properties -/

/-- A command carries the empty direction token when it is `focus ` or `move `
with nothing after the space. -/
def carriesEmptyDirection (cmd : String) : Bool :=
  cmd == "focus " || cmd == "move "

/-- A command of the form `workspace ...`. -/
def isWorkspaceCmd (cmd : String) : Bool :=
  hasPrefix "workspace ".data cmd.data

/-- The last command of the form `workspace ...` in a chain. -/
def lastWorkspaceCmd (chain : CmdChain) : Option String :=
  (chain.filter isWorkspaceCmd).getLast?

/-- How many outputs of a list lie to the left of the output `o`. -/
def leftOf (outputs : List Output) (o : Output) : Nat :=
  (outputs.filter (fun q => decide (q.Rect.X < o.Rect.X))).length

/-! ## Facts about the standard-library functions -/

theorem hasPrefix_iff (p s : List Char) : hasPrefix p s = true ↔ p <+: s := by
  induction p generalizing s with
  | nil => simp [hasPrefix]
  | cons a p ih =>
    cases s with
    | nil => simp [hasPrefix]
    | cons b s => simp [hasPrefix, ih, List.cons_prefix_cons]

theorem containsChars_iff (s sub : List Char) : containsChars s sub = true ↔ sub <:+: s := by
  induction s with
  | nil => simp [containsChars, hasPrefix_iff]
  | cons c s ih => simp [containsChars, hasPrefix_iff, ih, List.infix_cons_iff]

theorem stringsContains_iff (s substr : String) :
    stringsContains s substr = true ↔ substr.data <:+: s.data :=
  containsChars_iff s.data substr.data

theorem stringsContains_eq_false_iff (s substr : String) :
    stringsContains s substr = false ↔ ¬ substr.data <:+: s.data := by
  rw [← stringsContains_iff]
  simp

theorem splitChars_of_not_mem (sep : Char) (l : List Char) (h : sep ∉ l) :
    splitChars sep l = [l] := by
  induction l with
  | nil => rfl
  | cons c cs ih =>
    have hc : c ≠ sep := fun e => h (by simp [e])
    have hcs : sep ∉ cs := fun e => h (by simp [e])
    simp [splitChars, hc, ih hcs]

theorem splitChars_append_sep (sep : Char) (a r : List Char) (h : sep ∉ a) :
    splitChars sep (a ++ sep :: r) = a :: splitChars sep r := by
  induction a with
  | nil => simp [splitChars]
  | cons c cs ih =>
    have hc : c ≠ sep := fun e => h (by simp [e])
    have hcs : sep ∉ cs := fun e => h (by simp [e])
    simp [splitChars, hc, ih hcs]

theorem toDigitsCore_append (f n : Nat) (ds : List Char) :
    Nat.toDigitsCore 10 f n ds = Nat.toDigitsCore 10 f n [] ++ ds := by
  induction f generalizing n ds with
  | zero => simp [Nat.toDigitsCore]
  | succ f ih =>
    simp only [Nat.toDigitsCore]
    split
    · simp
    · rw [ih (n / 10) (Nat.digitChar (n % 10) :: ds), ih (n / 10) [Nat.digitChar (n % 10)]]
      simp

theorem digitChar_isDigit : ∀ d, d < 10 → (Nat.digitChar d).isDigit = true := by
  decide

theorem digitChar_eq_one : ∀ d, d < 10 → Nat.digitChar d = '1' → d = 1 := by
  decide

theorem toDigitsCore_isDigit (f n : Nat) :
    ∀ c ∈ Nat.toDigitsCore 10 f n [], c.isDigit = true := by
  induction f generalizing n with
  | zero => simp [Nat.toDigitsCore]
  | succ f ih =>
    intro c hc
    simp only [Nat.toDigitsCore] at hc
    split at hc
    · simp only [List.mem_singleton] at hc
      subst hc
      exact digitChar_isDigit _ (Nat.mod_lt _ (by decide))
    · rw [toDigitsCore_append] at hc
      rcases List.mem_append.1 hc with h | h
      · exact ih _ c h
      · simp only [List.mem_singleton] at h
        subst h
        exact digitChar_isDigit _ (Nat.mod_lt _ (by decide))

theorem toDigitsCore_ne_nil (f n : Nat) : Nat.toDigitsCore 10 (f + 1) n [] ≠ [] := by
  simp only [Nat.toDigitsCore]
  split
  · simp
  · rw [toDigitsCore_append]; simp

theorem toDigits_eq_one (n : Nat) (h : Nat.toDigits 10 n = ['1']) : n = 1 := by
  unfold Nat.toDigits at h
  simp only [Nat.toDigitsCore] at h
  split at h
  · rename_i h0
    have hlt : n < 10 := by omega
    have hd : Nat.digitChar (n % 10) = '1' := by simpa using h
    rw [Nat.mod_eq_of_lt hlt] at hd
    exact digitChar_eq_one n hlt hd
  · rename_i h0
    rw [toDigitsCore_append] at h
    have hpos : 0 < n := by
      rcases Nat.eq_zero_or_pos n with h1 | h1
      · subst h1; simp at h0
      · exact h1
    obtain ⟨m, rfl⟩ : ∃ m, n = m + 1 := ⟨n - 1, by omega⟩
    have hne := toDigitsCore_ne_nil m ((m + 1) / 10)
    have hlen := congrArg List.length h
    simp only [List.length_append, List.length_singleton] at hlen
    have : (Nat.toDigitsCore 10 (m + 1) ((m + 1) / 10) []).length = 0 := by omega
    exact absurd (List.length_eq_zero.1 this) hne

/-- The decimal text of an integer is `-1` only for the integer −1. -/
theorem Itoa_eq_neg_one (n : Int) : Itoa n = "-1" ↔ n = -1 := by
  constructor
  · intro h
    cases n with
    | ofNat m =>
      exfalso
      have hd : Nat.toDigits 10 m = ['-', '1'] := by
        have := congrArg String.data h
        simpa [Itoa, Nat.repr, List.asString] using this
      have := toDigitsCore_isDigit (m + 1) m '-' (by
        show '-' ∈ Nat.toDigits 10 m
        rw [hd]; simp)
      exact absurd this (by decide)
    | negSucc k =>
      have hd : Nat.toDigits 10 (k + 1) = ['1'] := by
        have := congrArg String.data h
        simpa [Itoa, Nat.repr, List.asString] using this
      have := toDigits_eq_one _ hd
      have hk : k = 0 := by omega
      subst hk
      rfl
  · rintro rfl
    decide

/-- A token accepted by `ParseInt` has a value in the signed range of `b` bits;
a longer run of digits is a parse failure. -/
theorem ParseInt_bounds (s : String) (b : Nat) (n : Int) (h : ParseInt s b = some n) :
    -(2 ^ (b - 1) : Int) ≤ n ∧ n < 2 ^ (b - 1) := by
  unfold ParseInt at h
  split at h
  · simp at h
  · rename_i c cs _
    simp only at h
    split at h
    · simp at h
    · rename_i un _
      split at h
      · simp at h
      · split at h
        · simp at h
        · rename_i h1 h2
          simp only [Option.some.injEq] at h
          have hp : (0 : Int) ≤ un := Int.ofNat_nonneg un
          have hq : (0 : Int) < 2 ^ (b - 1) := by positivity
          by_cases hneg : c = '-'
          · simp [hneg] at h h1 h2
            subst h
            have : ((un : Int)) ≤ 2 ^ (b - 1) := by exact_mod_cast h2
            constructor <;> omega
          · simp [hneg] at h h1 h2
            subst h
            have : ((un : Int)) < 2 ^ (b - 1) := by exact_mod_cast h1
            constructor <;> omega

/-! ## Facts about the resolver -/

theorem firstWhere_ok_iff (P : Workspace → Bool) (l : List Workspace) (w : Workspace) :
    firstWhere P l = .ok w ↔
      ∃ pre post, l = pre ++ w :: post ∧ P w = true ∧ ∀ x ∈ pre, P x = false := by
  induction l with
  | nil => simp [firstWhere]
  | cons a l ih =>
    by_cases ha : P a = true
    · simp only [firstWhere, ha, if_true, Except.ok.injEq]
      constructor
      · rintro rfl
        exact ⟨[], l, rfl, ha, by simp⟩
      · rintro ⟨pre, post, hl, _, hpre⟩
        cases pre with
        | nil => simpa using (List.cons.inj hl).1
        | cons x pre =>
          have hx : a = x := (List.cons.inj hl).1
          have := hpre x (by simp)
          rw [← hx, ha] at this
          exact absurd this (by simp)
    · have ha' : P a = false := by simpa using ha
      simp only [firstWhere, ha', Bool.false_eq_true, if_false, ih]
      constructor
      · rintro ⟨pre, post, hl, hw, hpre⟩
        refine ⟨a :: pre, post, by simp [hl], hw, ?_⟩
        intro x hx
        rcases List.mem_cons.1 hx with rfl | hx
        · exact ha'
        · exact hpre x hx
      · rintro ⟨pre, post, hl, hw, hpre⟩
        cases pre with
        | nil =>
          have hx : a = w := by simpa using (List.cons.inj hl).1
          rw [hx, hw] at ha'
          exact absurd ha' (by simp)
        | cons x pre =>
          exact ⟨pre, post, (List.cons.inj hl).2, hw, fun y hy => hpre y (by simp [hy])⟩

theorem firstWhere_error_iff (P : Workspace → Bool) (l : List Workspace) (e : Err) :
    firstWhere P l = .error e ↔ e = .ErrWorkspaceNotFound ∧ ∀ x ∈ l, P x = false := by
  induction l with
  | nil =>
    constructor
    · intro h
      exact ⟨(Except.error.inj h).symm, by simp⟩
    · rintro ⟨rfl, _⟩
      rfl
  | cons a l ih =>
    by_cases ha : P a = true
    · simp [firstWhere, ha]
    · have ha' : P a = false := by simpa using ha
      simp [firstWhere, ha', ih]

theorem GetWSNum_loop_eq (num : Int) (l : List Workspace) :
    GetWSNum.loop num l = firstWhere (fun w => decide (w.Num = num)) l := by
  induction l with
  | nil => rfl
  | cons a l ih =>
    simp only [GetWSNum.loop, firstWhere, ih, decide_eq_true_eq]

theorem GetWSName_loop_eq (name : String) (l : List Workspace) :
    GetWSName.loop name l = firstWhere (fun w => stringsContains w.Name name) l := by
  induction l with
  | nil => rfl
  | cons a l ih =>
    simp only [GetWSName.loop, firstWhere, ih]

/-! ## The chain built by `Show` -/

/-- C1. When the focused workspace `curr` and the resolved target differ and are
not both visible, `Show` builds: show the target, move it to the output of
`curr` if it lives elsewhere, show `curr`, show the target again, focus the
output of `curr`. -/
theorem Show_hidden_path (client : Client) (wsName : String) (curr target : Workspace)
    (hcur : CurrentWS (Init client) = .ok curr)
    (htgt : GetWS (Init client) wsName = .ok target)
    (hne : target ≠ curr)
    (hvis : ¬ (curr.Visible = true ∧ target.Visible = true)) :
    (Show client wsName).chain =
      ["workspace " ++ target.Name]
        ++ (if target.Output ≠ curr.Output then ["move workspace to output " ++ curr.Output]
            else [])
        ++ ["workspace " ++ curr.Name, "workspace " ++ target.Name,
            "focus output " ++ curr.Output] := by
  have hne' : ¬ curr = target := fun e => hne e.symm
  have hv : (curr.Visible && target.Visible) = false := by
    simpa using hvis
  unfold Show
  simp only [htgt, hcur, valueOf, hne', if_false, hv, Bool.false_eq_true]
  by_cases ho : target.Output = curr.Output
  · simp [RunChain, CmdChain.FocusOutput, CmdChain.ShowWS, CmdChain.ShowWSOnOutput,
      CmdChain.Add, Init, ho]
  · simp [RunChain, CmdChain.FocusOutput, CmdChain.ShowWS, CmdChain.ShowWSOnOutput,
      CmdChain.MoveWSToOuput, CmdChain.Add, Init, ho]

/-- C1, at the two-screen desktop: showing the hidden `4:doc` from `1:term`. -/
theorem Show_hidden_path_witness :
    (Show desk "doc").chain =
      ["workspace 4:doc", "move workspace to output eDP-1", "workspace 1:term",
       "workspace 4:doc", "focus output eDP-1"] :=
  Show_hidden_path desk "doc" (mkWS 1 "1:term" "eDP-1" true true)
    (mkWS 4 "4:doc" "HDMI-1" false false) rfl rfl (by decide) (by decide)

/-- C2. When the focused workspace `curr` and the resolved target are both
visible, on two different outputs, `Show` builds the four commands of the swap
of `curr` with the target and then focuses the output of `curr` once more. -/
theorem Show_both_visible (client : Client) (wsName : String) (curr target : Workspace)
    (hcur : CurrentWS (Init client) = .ok curr)
    (htgt : GetWS (Init client) wsName = .ok target)
    (hne : target ≠ curr)
    (hcv : curr.Visible = true) (htv : target.Visible = true)
    (hout : curr.Output ≠ target.Output) :
    (Show client wsName).chain =
      ["move workspace to output " ++ target.Output, "workspace " ++ target.Name,
       "move workspace to output " ++ curr.Output, "focus output " ++ curr.Output,
       "focus output " ++ curr.Output] := by
  have _ := hout
  have hne' : ¬ curr = target := fun e => hne e.symm
  unfold Show
  simp only [htgt, hcur, valueOf, hne', if_false, hcv, htv, Bool.and_self, if_true]
  simp [RunChain, CmdChain.FocusOutput, CmdChain.ShowWS, CmdChain.SwapWS,
    CmdChain.MoveWSToOuput, CmdChain.Add, Init]

/-- C2, at the two-screen desktop: showing the visible `3:mail` from `1:term`. -/
theorem Show_both_visible_witness :
    (Show desk "3").chain =
      ["move workspace to output HDMI-1", "workspace 3:mail",
       "move workspace to output eDP-1", "focus output eDP-1", "focus output eDP-1"] :=
  Show_both_visible desk "3" (mkWS 1 "1:term" "eDP-1" true true)
    (mkWS 3 "3:mail" "HDMI-1" true false) rfl rfl (by decide) (by decide)
    (by decide) (by decide)

/-- C3. When the argument resolves to no workspace, `Show` builds the single
command that selects a workspace of that literal name, and sends it. -/
theorem Show_not_found (client : Client) (wsName : String)
    (h : GetWS (Init client) wsName = .error .ErrWorkspaceNotFound) :
    (Show client wsName).chain = ["workspace " ++ wsName] ∧
      (Show client wsName).sent = some ("workspace " ++ wsName) := by
  unfold Show
  simp only [h]
  constructor
  · simp [RunChain, CmdChain.ShowWS, CmdChain.Add, Init]
  · simp [RunChain, CmdChain.ShowWS, CmdChain.Add, Init, stringsJoin, String.intercalate,
      String.intercalate.go]

/-- C3, at the two-screen desktop: no workspace is numbered 7. -/
theorem Show_not_found_witness :
    GetWS (Init desk) "7" = .error .ErrWorkspaceNotFound ∧
      (Show desk "7").chain = ["workspace 7"] :=
  ⟨rfl, (Show_not_found desk "7" rfl).1⟩

/-! ## The composite swap -/

/-- C4. The method `SwapWS` appends to any chain, in this order: move to the
output of the second workspace, show the second workspace, move to the output
of the first, focus the output of the first. -/
theorem SwapWS_appends (c : CmdChain) (wsA wsB : Workspace) :
    c.SwapWS wsA wsB =
        c ++ ["move workspace to output " ++ wsB.Output, "workspace " ++ wsB.Name,
              "move workspace to output " ++ wsA.Output, "focus output " ++ wsA.Output] ∧
      CmdChain.SwapWS [] (mkWS 1 "1:a" "HDMI-1" true true) (mkWS 2 "2:b" "eDP-1" true false) =
        ["move workspace to output eDP-1", "workspace 2:b",
         "move workspace to output HDMI-1", "focus output HDMI-1"] := by
  constructor
  · simp [CmdChain.SwapWS, CmdChain.FocusOutput, CmdChain.ShowWS, CmdChain.MoveWSToOuput,
      CmdChain.Add]
  · decide

/-! ## The operation `Swap` -/

theorem Swap_chain_length (client : Client)
    (h : (ActiveOutputs (Init client)).length = 2) : (Swap client).chain.length = 4 := by
  unfold Swap
  simp only [h, ne_eq, not_true_eq_false, if_false]
  split <;>
    simp [RunChain, CmdChain.SwapWS, CmdChain.FocusOutput, CmdChain.ShowWS,
      CmdChain.MoveWSToOuput, CmdChain.Add, Init]

/-- C5, evaluated on the desktop `crowded`: two active outputs, each showing a
workspace of the snapshot, the focused workspace `1:a` shown on `eDP-1`; the
lookup of `1:a` finds `11:a` first, and the chain of `Swap` ends with a focus
on `HDMI-1`, not on the output `eDP-1` of the focused workspace. -/
theorem Swap_focus_on_crowded :
    ActiveOutputs (Init crowded) = [mkOut "HDMI-1" "2:b" 0, mkOut "eDP-1" "1:a" 1920] ∧
      mkWS 2 "2:b" "HDMI-1" true false ∈ (Init crowded).workspaces ∧
      mkWS 1 "1:a" "eDP-1" true true ∈ (Init crowded).workspaces ∧
      CurrentWS (Init crowded) = .ok (mkWS 1 "1:a" "eDP-1" true true) ∧
      GetWS (Init crowded) "1:a" = .ok (mkWS 11 "11:a" "HDMI-1" false false) ∧
      (Swap crowded).chain =
        ["move workspace to output HDMI-1", "workspace 2:b",
         "move workspace to output HDMI-1", "focus output HDMI-1"] ∧
      (Swap crowded).chain.getLast? ≠ some "focus output eDP-1" :=
  ⟨by decide, by decide, by decide, rfl, rfl, by decide, by decide⟩

/-! ## The operation `Bind` -/

/-- C6. When the focused workspace `curr` does not carry the number `num` and
`num` resolves to `other`, `Bind` builds: show `other`, rename it to the number
of `curr` and its own label (to the bare label when `curr` is unnumbered), show
again what the output of `other` was showing when that is another output and
another workspace, show `curr`, rename it to `num` and its label, focus the
output of `curr`. -/
theorem Bind_displaced (client : Client) (num : String) (curr other : Workspace)
    (hcur : CurrentWS (Init client) = .ok curr)
    (hnum : Itoa curr.Num ≠ num)
    (hres : GetWS (Init client) num = .ok other) :
    (Bind client num).chain =
      ["workspace " ++ other.Name,
       "rename workspace to " ++
         (if curr.Num ≠ -1 then Itoa curr.Num ++ ":" ++ WSName other else WSName other)]
        ++ (if other.Output ≠ curr.Output then
              match OutputWS (Init client) other.Output with
              | .ok restore => if restore ≠ other then ["workspace " ++ restore.Name] else []
              | .error _ => []
            else [])
        ++ ["workspace " ++ curr.Name,
            "rename workspace to " ++ (num ++ ":" ++ WSName curr),
            "focus output " ++ curr.Output] := by
  have hitoa : (Itoa curr.Num = "-1") = (curr.Num = -1) := propext (Itoa_eq_neg_one _)
  unfold Bind
  simp only [hcur, valueOf, hnum, if_false, hres, ne_eq, hitoa]
  by_cases hn : curr.Num = -1 <;> by_cases ho : other.Output = curr.Output
  · simp [hn, ho, RunChain, CmdChain.RenameWS, CmdChain.FocusOutput, CmdChain.ShowWS,
      CmdChain.Add, Init]
  · cases hr : OutputWS (Init client) other.Output with
    | error e =>
      simp [hn, ho, RunChain, CmdChain.RenameWS, CmdChain.FocusOutput,
        CmdChain.ShowWS, CmdChain.Add, Init]
    | ok restore =>
      by_cases hro : restore = other <;>
        simp [hn, ho, hro, RunChain, CmdChain.RenameWS, CmdChain.FocusOutput,
          CmdChain.ShowWS, CmdChain.Add, Init]
  · simp [hn, ho, RunChain, CmdChain.RenameWS, CmdChain.FocusOutput, CmdChain.ShowWS,
      CmdChain.Add, Init]
  · cases hr : OutputWS (Init client) other.Output with
    | error e =>
      simp [hn, ho, RunChain, CmdChain.RenameWS, CmdChain.FocusOutput,
        CmdChain.ShowWS, CmdChain.Add, Init]
    | ok restore =>
      by_cases hro : restore = other <;>
        simp [hn, ho, hro, RunChain, CmdChain.RenameWS, CmdChain.FocusOutput,
          CmdChain.ShowWS, CmdChain.Add, Init]

/-- C6, at the two-screen desktop: binding `1:term` to 4 displaces the hidden
`4:doc` of the other screen, whose visible `3:mail` is shown again. -/
theorem Bind_displaced_witness :
    (Bind desk "4").chain =
      ["workspace 4:doc", "rename workspace to 1:doc", "workspace 3:mail",
       "workspace 1:term", "rename workspace to 4:term", "focus output eDP-1"] :=
  Bind_displaced desk "4" (mkWS 1 "1:term" "eDP-1" true true)
    (mkWS 4 "4:doc" "HDMI-1" false false) rfl (by decide) rfl

/-- C7. With a focused workspace `curr`: when `curr` does not carry the number
`num` and `num` resolves to nothing, `Bind` still reaches `RunChain`, with the
two commands that rename `curr` and focus its output; when `curr` already
carries `num`, `Bind` builds nothing and sends nothing. -/
theorem Bind_best_effort (client : Client) (num : String) (curr : Workspace)
    (hcur : CurrentWS (Init client) = .ok curr) :
    (Itoa curr.Num ≠ num → (∃ e, GetWS (Init client) num = .error e) →
        (Bind client num).chain =
            ["rename workspace to " ++ (num ++ ":" ++ WSName curr),
             "focus output " ++ curr.Output] ∧
          (Bind client num).sent.isSome = true) ∧
      (Itoa curr.Num = num →
        (Bind client num).chain = [] ∧ (Bind client num).sent = none) := by
  constructor
  · rintro hnum ⟨e, he⟩
    unfold Bind
    simp only [hcur, valueOf, hnum, if_false, he]
    simp [RunChain, CmdChain.RenameWS, CmdChain.FocusOutput, CmdChain.Add, Init]
  · intro hnum
    unfold Bind
    simp only [hcur, valueOf, hnum, if_true]
    simp [returned, Init]

/-- C7, at the two-screen desktop: no workspace is numbered 9, and `1:term`
already carries the number 1. -/
theorem Bind_best_effort_witness :
    (Bind desk "9").chain = ["rename workspace to 9:term", "focus output eDP-1"] ∧
      (Bind desk "1").chain = [] :=
  ⟨((Bind_best_effort desk "9" (mkWS 1 "1:term" "eDP-1" true true) rfl).1
      (by decide) ⟨.ErrWorkspaceNotFound, rfl⟩).1,
   ((Bind_best_effort desk "1" (mkWS 1 "1:term" "eDP-1" true true) rfl).2 (by decide)).1⟩

/-! ## The resolver -/

/-- C8. When the token parses as a 32-bit decimal integer `n`, `GetWS` yields
the first workspace of the snapshot whose number is `n`, and fails with
`ErrWorkspaceNotFound` exactly when no workspace has that number, whatever the
names are; when the token does not parse, `GetWS` yields the first workspace
whose name has the token as a substring, and fails with `ErrWorkspaceNotFound`
exactly when no name has. -/
theorem GetWS_dispatch (c : XSway) (token : String) :
    (∀ n, ParseInt token 32 = some n →
        (∀ w, GetWS c token = .ok w ↔
          ∃ pre post, c.workspaces = pre ++ w :: post ∧ w.Num = n ∧
            ∀ x ∈ pre, x.Num ≠ n) ∧
        (GetWS c token = .error .ErrWorkspaceNotFound ↔ ∀ x ∈ c.workspaces, x.Num ≠ n)) ∧
      (ParseInt token 32 = none →
        (∀ w, GetWS c token = .ok w ↔
          ∃ pre post, c.workspaces = pre ++ w :: post ∧ token.data <:+: w.Name.data ∧
            ∀ x ∈ pre, ¬ token.data <:+: x.Name.data) ∧
        (GetWS c token = .error .ErrWorkspaceNotFound ↔
          ∀ x ∈ c.workspaces, ¬ token.data <:+: x.Name.data)) ∧
      (ParseInt "3" 32 = some 3 ∧
        stringsContains (mkWS 13 "13:x" "eDP-1" true true).Name "3" = true ∧
        GetWS (Init { workspaces := [mkWS 13 "13:x" "eDP-1" true true], outputs := [] }) "3" =
          .error .ErrWorkspaceNotFound) := by
  refine ⟨?_, ?_, by decide, by decide, rfl⟩
  · intro n hn
    simp only [GetWS, hn, GetWSNum, GetWSNum_loop_eq]
    constructor
    · intro w
      rw [firstWhere_ok_iff]
      simp
    · rw [firstWhere_error_iff]
      simp
  · intro hn
    simp only [GetWS, hn, GetWSName, GetWSName_loop_eq]
    constructor
    · intro w
      rw [firstWhere_ok_iff]
      simp [stringsContains_iff, stringsContains_eq_false_iff]
    · rw [firstWhere_error_iff]
      simp [stringsContains_eq_false_iff]

/-- C8, at the two-screen desktop: `3` resolves by number and `doc` by name. -/
theorem GetWS_dispatch_witness :
    GetWS (Init desk) "3" = .ok (mkWS 3 "3:mail" "HDMI-1" true false) ∧
      GetWS (Init desk) "doc" = .ok (mkWS 4 "4:doc" "HDMI-1" false false) :=
  ⟨(((GetWS_dispatch (Init desk) "3").1 3 (by decide)).1 _).2
      ⟨[mkWS 1 "1:term" "eDP-1" true true, mkWS 2 "2:web" "eDP-1" false false],
        [mkWS 4 "4:doc" "HDMI-1" false false], rfl, rfl, by decide⟩,
   ((((GetWS_dispatch (Init desk) "doc").2.1 (by decide)).1 _).2
      ⟨[mkWS 1 "1:term" "eDP-1" true true, mkWS 2 "2:web" "eDP-1" false false,
        mkWS 3 "3:mail" "HDMI-1" true false], [], rfl,
        (stringsContains_iff "4:doc" "doc").1 (by decide),
        by
          intro x hx
          rw [← stringsContains_iff]
          revert x
          decide⟩)⟩

/-! ## Labels and renaming -/

/-- C9. The label `WSName` of a workspace is its whole name when the name has
no colon, and otherwise the text between the first colon and the second one
(or the end of the name when there is one colon only); so the labels of
`2:web`, `misc` and `1:a:b` are `web`, `misc` and `a`. -/
theorem WSName_label (ws : Workspace) :
    (':' ∉ ws.Name.data → WSName ws = ws.Name) ∧
      (∀ a b : List Char, ':' ∉ a → ':' ∉ b → ws.Name.data = a ++ ':' :: b →
        WSName ws = String.mk b) ∧
      (∀ a b rest : List Char, ':' ∉ a → ':' ∉ b →
        ws.Name.data = a ++ ':' :: (b ++ ':' :: rest) → WSName ws = String.mk b) ∧
      (WSName (mkWS 2 "2:web" "eDP-1" true true) = "web" ∧
        WSName (mkWS (-1) "misc" "eDP-1" true true) = "misc" ∧
        WSName (mkWS 1 "1:a:b" "eDP-1" true true) = "a") := by
  refine ⟨?_, ?_, ?_, by decide, by decide, by decide⟩
  · intro h
    simp [WSName, stringsSplit, splitChars_of_not_mem _ _ h]
  · intro a b ha hb hname
    simp [WSName, stringsSplit, hname, splitChars_append_sep _ _ _ ha,
      splitChars_of_not_mem _ _ hb]
  · intro a b rest ha hb hname
    simp [WSName, stringsSplit, hname, splitChars_append_sep _ _ _ ha,
      splitChars_append_sep _ _ _ hb]

/-- C9, at the name `10:mail:old`: the label is `mail`. -/
theorem WSName_label_witness :
    WSName (mkWS 10 "10:mail:old" "eDP-1" false false) = "mail" :=
  (WSName_label (mkWS 10 "10:mail:old" "eDP-1" false false)).2.2.1
    ['1', '0'] ['m', 'a', 'i', 'l'] ['o', 'l', 'd'] (by decide) (by decide) rfl

/-- C10. With a focused workspace `ws`, `Rename` builds exactly one command: the
rename to the decimal number of `ws`, a colon and the new name when `ws` is
numbered, and to the new name alone when the number of `ws` is −1. -/
theorem Rename_keeps_number (client : Client) (newName : String) (ws : Workspace)
    (hcur : CurrentWS (Init client) = .ok ws) :
    (Rename client newName).chain =
      [if ws.Num ≠ -1 then "rename workspace to " ++ (Itoa ws.Num ++ ":" ++ newName)
       else "rename workspace to " ++ newName] := by
  unfold Rename
  simp only [hcur, valueOf]
  by_cases hn : ws.Num = -1 <;>
    simp [hn, RunChain, CmdChain.RenameWS, CmdChain.Add, Init]

/-- C10, at the two-screen desktop: the focused `1:term` keeps its number. -/
theorem Rename_keeps_number_witness :
    (Rename desk "shell").chain = ["rename workspace to 1:shell"] :=
  Rename_keeps_number desk "shell" (mkWS 1 "1:term" "eDP-1" true true) rfl


/-! ## Facts about sorting -/

theorem sink_perm {α : Type} (less : α → α → Bool) (x : α) (left : List α) :
    (sink less x left).Perm (x :: left) := by
  induction left with
  | nil => exact List.Perm.refl _
  | cons y ys ih =>
    by_cases h : less x y = true
    · simp only [sink, h, if_true]
      exact ((List.Perm.cons y ih).trans (List.Perm.swap x y ys))
    · simp only [sink, h, if_false]
      exact List.Perm.refl _

theorem foldl_sink_perm {α : Type} (less : α → α → Bool) (data acc : List α) :
    (data.foldl (fun left x => sink less x left) acc).Perm (data ++ acc) := by
  induction data generalizing acc with
  | nil => exact List.Perm.refl _
  | cons x xs ih =>
    simp only [List.foldl_cons]
    refine (ih (sink less x acc)).trans ?_
    refine ((sink_perm less x acc).append_left xs).trans ?_
    exact List.perm_middle

theorem insertionSort_perm {α : Type} (less : α → α → Bool) (data : List α) :
    (insertionSort less data).Perm data := by
  unfold insertionSort
  refine (List.reverse_perm _).trans ?_
  simpa using foldl_sink_perm less data []

theorem sink_descending {α : Type} (k : α → Int) (x : α) (left : List α)
    (h : left.Pairwise (fun a b => k b ≤ k a)) :
    (sink (fun a b => decide (k a < k b)) x left).Pairwise (fun a b => k b ≤ k a) := by
  induction left with
  | nil => simp [sink]
  | cons y ys ih =>
    obtain ⟨hy, hys⟩ := List.pairwise_cons.1 h
    by_cases hlt : k x < k y
    · simp only [sink, hlt, decide_True, if_true]
      refine List.pairwise_cons.2 ⟨?_, ih hys⟩
      intro b hb
      rcases List.mem_cons.1 ((sink_perm _ x ys).mem_iff.1 hb) with rfl | hb
      · exact le_of_lt hlt
      · exact hy b hb
    · simp only [sink, hlt, decide_False, Bool.false_eq_true, if_false]
      refine List.pairwise_cons.2 ⟨?_, h⟩
      intro b hb
      rcases List.mem_cons.1 hb with rfl | hb
      · exact not_lt.1 hlt
      · exact le_trans (hy b hb) (not_lt.1 hlt)

theorem foldl_sink_descending {α : Type} (k : α → Int) (data acc : List α)
    (h : acc.Pairwise (fun a b => k b ≤ k a)) :
    (data.foldl (fun left x => sink (fun a b => decide (k a < k b)) x left) acc).Pairwise
      (fun a b => k b ≤ k a) := by
  induction data generalizing acc with
  | nil => exact h
  | cons x xs ih =>
    simp only [List.foldl_cons]
    exact ih _ (sink_descending k x acc h)

theorem insertionSort_ascending {α : Type} (k : α → Int) (data : List α) :
    (insertionSort (fun a b => decide (k a < k b)) data).Pairwise (fun a b => k a ≤ k b) := by
  unfold insertionSort
  rw [List.pairwise_reverse]
  exact foldl_sink_descending k data [] List.Pairwise.nil

theorem cmpCompare_neg (x y : Int) : cmpCompare x y < 0 ↔ x < y := by
  unfold cmpCompare
  split
  · simp [*]
  · split <;> simp [*]

theorem pdqsort_short {α : Type} (long : LongSort) (less : α → α → Bool) (data : List α)
    (h : data.length ≤ 12) : pdqsort long less data = insertionSort less data := by
  unfold pdqsort
  rw [if_pos h]

theorem pdqsort_perm {α : Type} (long : LongSort) (less : α → α → Bool) (data : List α) :
    (pdqsort long less data).Perm data := by
  unfold pdqsort
  split
  · exact insertionSort_perm less data
  · exact long.perm less data

theorem StrictWeak_key {α : Type} (k : α → Int) :
    StrictWeak (fun a b => decide (k a < k b)) := by
  refine ⟨?_, ?_, ?_⟩
  · intro a
    simp
  · intro a b c hab hbc
    simp only [decide_eq_true_eq] at hab hbc ⊢
    exact lt_trans hab hbc
  · intro a b c hab hbc
    simp only [decide_eq_false_iff_not, not_lt] at hab hbc ⊢
    exact le_trans hbc hab

theorem pdqsort_ascending {α : Type} (long : LongSort) (k : α → Int) (data : List α) :
    (pdqsort long (fun a b => decide (k a < k b)) data).Pairwise (fun a b => k a ≤ k b) := by
  unfold pdqsort
  split
  · exact insertionSort_ascending k data
  · refine (long.ascending _ data (StrictWeak_key k)).imp ?_
    intro a b h
    simpa using h

theorem slicesSortFunc_lenCmp (long : LongSort) (outputs : List Output) :
    slicesSortFunc long outputs lenCmp =
      pdqsort long (fun a b => decide (a.Rect.X < b.Rect.X)) outputs := by
  unfold slicesSortFunc
  congr 1
  funext a b
  simp [lenCmp, cmpCompare_neg]

theorem slicesSortFunc_perm (long : LongSort) (outputs : List Output) :
    (slicesSortFunc long outputs lenCmp).Perm outputs := by
  rw [slicesSortFunc_lenCmp]
  exact pdqsort_perm _ _ _

/-- With at most twelve outputs the steps taken as given in `long` are not
reached: the operation does the same for every `long`. -/
theorem FocusOutputHorizontalPosition_short (long : LongSort) (client : Client)
    (position : String) (h : client.outputs.length ≤ 12) :
    FocusOutputHorizontalPosition long client position =
      FocusOutputHorizontalPosition stableLong client position := by
  have hs : slicesSortFunc long client.outputs lenCmp =
      slicesSortFunc stableLong client.outputs lenCmp := by
    unfold slicesSortFunc
    rw [pdqsort_short _ _ _ h, pdqsort_short _ _ _ h]
  simp only [FocusOutputHorizontalPosition, Init, hs]

/-- With at most twelve workspaces the steps taken as given in `long` are not
reached: the listing is the same for every `long`. -/
theorem ListNames_short (long : LongSort) (client : Client)
    (h : client.workspaces.length ≤ 12) :
    ListNames long client = ListNames stableLong client := by
  have hs : sortSort long client.workspaces = sortSort stableLong client.workspaces := by
    unfold sortSort
    rw [pdqsort_short _ _ _ h, pdqsort_short _ _ _ h]
  simp only [ListNames, Init, hs]

/-- Whatever the sorting method, a list with pairwise distinct keys has one
ascending arrangement only: any two ascending permutations of it are equal. -/
theorem ascending_perm_unique (l₁ l₂ : List Output) (hp : l₁.Perm l₂)
    (h₁ : l₁.Pairwise (fun a b => a.Rect.X < b.Rect.X))
    (h₂ : l₂.Pairwise (fun a b => a.Rect.X < b.Rect.X)) : l₁ = l₂ := by
  haveI : IsAntisymm Output (fun a b => a.Rect.X < b.Rect.X) :=
    ⟨fun a b hab hba => absurd hab (not_lt.2 (le_of_lt hba))⟩
  exact List.eq_of_perm_of_sorted hp h₁ h₂

theorem sorted_strict (long : LongSort) (outputs : List Output)
    (hdist : outputs.Pairwise (fun a b => a.Rect.X ≠ b.Rect.X)) :
    (slicesSortFunc long outputs lenCmp).Pairwise (fun a b => a.Rect.X < b.Rect.X) := by
  have hperm := slicesSortFunc_perm long outputs
  rw [slicesSortFunc_lenCmp] at hperm ⊢
  have hasc := pdqsort_ascending long (fun o : Output => o.Rect.X) outputs
  have hd : (pdqsort long (fun a b : Output => decide (a.Rect.X < b.Rect.X)) outputs).Pairwise
      (fun a b => a.Rect.X ≠ b.Rect.X) :=
    (hperm.pairwise_iff (fun {a b} (h : a.Rect.X ≠ b.Rect.X) => h.symm)).2 hdist
  exact (hasc.and hd).imp (fun {a b} h => lt_of_le_of_ne h.1 h.2)

theorem leftOf_getElem (l : List Output)
    (h : l.Pairwise (fun a b => a.Rect.X < b.Rect.X)) :
    ∀ (i : Nat) (hi : i < l.length), leftOf l (l.get ⟨i, hi⟩) = i := by
  induction l with
  | nil => intro i hi; simp at hi
  | cons a t ih =>
    obtain ⟨ha, ht⟩ := List.pairwise_cons.1 h
    intro i hi
    cases i with
    | zero =>
      have : ∀ q ∈ t, ¬ q.Rect.X < a.Rect.X := fun q hq => not_lt.2 (le_of_lt (ha q hq))
      simp only [leftOf, List.get, List.filter_cons, lt_self_iff_false, decide_False,
        Bool.false_eq_true, if_false]
      rw [List.length_eq_zero, List.filter_eq_nil_iff]
      intro q hq
      simp [this q hq]
    | succ j =>
      have hj : j < t.length := by simpa using hi
      have hmem : t.get ⟨j, hj⟩ ∈ t := List.get_mem _ _ _
      have hlt := ha _ hmem
      have := ih ht j hj
      simp only [leftOf] at this ⊢
      simp only [List.get, List.filter_cons, hlt, decide_True, if_true, List.length_cons, this]


/-! ## Focusing an output by its horizontal position -/

theorem sliceAt_eq_get {α : Type} (s : List α) (p : Int) (h0 : 0 ≤ p) (hlt : p.toNat < s.length) :
    sliceAt s p = some (s.get ⟨p.toNat, hlt⟩) := by
  unfold sliceAt
  rw [if_neg (not_lt.2 h0)]
  exact List.get?_eq_get hlt

/-- C11. When every output is active, the outputs have pairwise distinct
`Rect.X`, and the position parses to `p` with `0 ≤ p < number of outputs`, the
operation runs a chain of exactly one command, the focus on the one output that
has exactly `p` outputs to its left; with outputs at x = 500 and x = 0, position
1 focuses the first of the two. -/
theorem FocusOutputHorizontalPosition_selects (long : LongSort) (client : Client)
    (position : String) (p : Int)
    (hact : ∀ o ∈ client.outputs, o.Active = true)
    (hdist : client.outputs.Pairwise (fun a b => a.Rect.X ≠ b.Rect.X))
    (hparse : ParseInt position 64 = some p)
    (h0 : 0 ≤ p) (hlt : p < client.outputs.length) :
    (∃ o ∈ client.outputs,
        FocusOutputHorizontalPosition long client position =
            .finished (RunChain ["focus output " ++ o.Name] "") ∧
          (leftOf client.outputs o : Int) = p ∧
          ∀ q ∈ client.outputs, (leftOf client.outputs q : Int) = p → q = o) ∧
      FocusOutputHorizontalPosition long
          { workspaces := [], outputs := [mkOut "HDMI-1" "" 500, mkOut "eDP-1" "" 0] } "1" =
        .finished (RunChain ["focus output HDMI-1"] "") := by
  have _ := hact
  refine ⟨?_, ?_⟩
  swap
  · rw [FocusOutputHorizontalPosition_short long _ "1" (by decide)]
    decide
  have hperm : (slicesSortFunc long client.outputs lenCmp).Perm client.outputs :=
    slicesSortFunc_perm long client.outputs
  have hsorted := sorted_strict long client.outputs hdist
  have hlen : (slicesSortFunc long client.outputs lenCmp).length = client.outputs.length :=
    hperm.length_eq
  have hp : p.toNat < (slicesSortFunc long client.outputs lenCmp).length := by
    rw [hlen]; omega
  have hleft : ∀ q,
      leftOf client.outputs q = leftOf (slicesSortFunc long client.outputs lenCmp) q :=
    fun q => ((hperm.filter _).length_eq).symm
  refine ⟨(slicesSortFunc long client.outputs lenCmp).get ⟨p.toNat, hp⟩,
    hperm.mem_iff.1 (List.get_mem _ _ _), ?_, ?_, ?_⟩
  · unfold FocusOutputHorizontalPosition
    simp only [hparse, Init, not_le.2 hlt, if_false]
    rw [sliceAt_eq_get _ p h0 hp]
    simp [CmdChain.FocusOutput, CmdChain.Add]
  · rw [hleft, leftOf_getElem _ hsorted]
    omega
  · intro q hq hqp
    obtain ⟨i, hi⟩ := List.get_of_mem (hperm.mem_iff.2 hq)
    have hcount := leftOf_getElem _ hsorted i.1 i.2
    have hi' : (slicesSortFunc long client.outputs lenCmp).get ⟨i.1, i.2⟩ = q := hi
    rw [hi', ← hleft] at hcount
    have hip : i.1 = p.toNat := by omega
    rw [← hi']
    congr 1
    exact Fin.ext hip

/-- C11, at the two-screen desktop: position 1 is the monitor at x = 1920. -/
theorem FocusOutputHorizontalPosition_selects_witness :
    ∃ o ∈ desk.outputs,
      FocusOutputHorizontalPosition stableLong desk "1" =
          .finished (RunChain ["focus output " ++ o.Name] "") ∧
        (leftOf desk.outputs o : Int) = 1 ∧
        ∀ q ∈ desk.outputs, (leftOf desk.outputs q : Int) = 1 → q = o :=
  (FocusOutputHorizontalPosition_selects stableLong desk "1" 1 (by decide) (by decide)
    (by decide) (by decide) (by decide)).1

/-! ## Facts about formatted printing -/

theorem skipFlags_length (s : List Char) : (skipFlags s).length ≤ s.length := by
  induction s with
  | nil => simp [skipFlags]
  | cons c cs ih =>
    simp only [skipFlags]
    split
    · exact le_trans ih (Nat.le_succ _)
    · exact le_refl _

theorem parsenum_length (s : List Char) (num : Nat) (isnum : Bool) (r : Bool × List Char)
    (h : parsenum s num isnum = some r) : r.2.length ≤ s.length := by
  induction s generalizing num isnum with
  | nil =>
    simp only [parsenum, Option.some.injEq] at h
    subst h
    simp
  | cons c cs ih =>
    simp only [parsenum] at h
    split at h
    · split at h
      · simp at h
      · exact le_trans (ih _ _ h) (Nat.le_succ _)
    · simp only [Option.some.injEq] at h
      subst h
      simp

theorem parsenumToEnd_length (s : List Char) : (parsenumToEnd s).2.length ≤ s.length := by
  unfold parsenumToEnd
  split
  · simp
  · rename_i r h
    exact parsenum_length s 0 false r h

theorem argNumber_length (s : List Char) : (argNumber s).1.length ≤ s.length := by
  unfold argNumber
  split
  · simp
  · exact le_refl _

theorem Verb.index_length (v : Verb) : v.index.rest.length ≤ v.rest.length :=
  argNumber_length v.rest

theorem Verb.width_length (v : Verb) : v.width.rest.length ≤ v.rest.length := by
  unfold Verb.width
  split
  · rename_i r h
    simp [h]
  · exact parsenumToEnd_length v.rest

theorem Verb.precision_length (v : Verb) : v.precision.rest.length ≤ v.rest.length := by
  unfold Verb.precision
  split
  · rename_i r h
    simp only [h, List.length_cons]
    have h1 := Verb.index_length
      { v with rest := r, goodArgNum := v.goodArgNum && !v.afterIndex }
    simp only at h1
    split
    · rename_i r2 h2
      rw [h2] at h1
      simp only [List.length_cons] at h1
      dsimp only
      omega
    · have h2 := parsenumToEnd_length
        (Verb.index { v with rest := r, goodArgNum := v.goodArgNum && !v.afterIndex }).rest
      dsimp only
      omega
  · exact le_refl _

theorem Verb.finish_length (v : Verb) : v.finish.2.length ≤ v.rest.length := by
  unfold Verb.finish
  split
  · simp
  · rename_i verb rest h
    rw [h]
    split
    · simp
    · split <;> simp

theorem doVerb_length (s : List Char) : (doVerb s).2.length ≤ s.length := by
  unfold doVerb
  simp only
  refine le_trans (Verb.finish_length _) ?_
  have h1 := skipFlags_length s
  have h2 := Verb.index_length
    { out := [], rest := skipFlags s, afterIndex := false, goodArgNum := true }
  have h3 := Verb.width_length (Verb.index
    { out := [], rest := skipFlags s, afterIndex := false, goodArgNum := true })
  have h4 := Verb.precision_length (Verb.width (Verb.index
    { out := [], rest := skipFlags s, afterIndex := false, goodArgNum := true }))
  simp only at h2
  split
  · have h5 := Verb.index_length (Verb.precision (Verb.width (Verb.index
      { out := [], rest := skipFlags s, afterIndex := false, goodArgNum := true })))
    omega
  · omega

/-- The count given to `doPrintf` never runs out: any count that is at least the
length of the format gives the same text. -/
theorem doPrintf_enough (n m : Nat) (l : List Char) (hn : l.length ≤ n) (hm : l.length ≤ m) :
    doPrintf n l = doPrintf m l := by
  induction n generalizing m l with
  | zero =>
    have : l = [] := List.length_eq_zero.1 (Nat.le_zero.1 hn)
    subst this
    cases m <;> rfl
  | succ n ih =>
    cases l with
    | nil => cases m <;> rfl
    | cons c cs =>
      cases m with
      | zero => simp at hm
      | succ m =>
        have hn1 : cs.length ≤ n := by simpa using hn
        have hm1 : cs.length ≤ m := by simpa using hm
        have hv := doVerb_length cs
        simp only [doPrintf]
        split
        · rw [ih m cs hn1 hm1]
        · rw [ih m (doVerb cs).2 (le_trans hv hn1) (le_trans hv hm1)]

theorem doPrintf_verbatim (n : Nat) (l : List Char) (hn : l.length ≤ n) (h : '%' ∉ l) :
    doPrintf n l = l := by
  induction l generalizing n with
  | nil => cases n <;> rfl
  | cons c cs ih =>
    cases n with
    | zero => simp at hn
    | succ n =>
      have hc : c ≠ '%' := fun e => h (by simp [e])
      have hcs : '%' ∉ cs := fun e => h (by simp [e])
      simp only [doPrintf, hc, ne_eq, not_false_eq_true, if_true]
      rw [ih n (by simpa using hn) hcs]

/-- A format without `%` is written as it is. -/
theorem fmtPrintf_verbatim (format : String) (h : '%' ∉ format.data) :
    fmtPrintf format = format := by
  show String.mk (doPrintf format.data.length format.data) = format
  rw [doPrintf_verbatim _ _ (le_refl _) h]


/-! ## The operation `Merge` -/

theorem append_eq_left_iff (t d : String) : t ++ d = t ↔ d = "" := by
  rw [String.ext_iff, String.ext_iff]
  simp [String.data_append]

theorem carriesEmptyDirection_of_ne (cmd : String) (h1 : cmd ≠ "focus ") (h2 : cmd ≠ "move ") :
    carriesEmptyDirection cmd = false := by
  unfold carriesEmptyDirection
  rw [beq_eq_false_iff_ne.2 h1, beq_eq_false_iff_ne.2 h2]
  rfl

theorem carriesEmptyDirection_focus (d : String) (hd : d ≠ "") :
    carriesEmptyDirection ("focus " ++ d) = false := by
  apply carriesEmptyDirection_of_ne
  · exact fun h => hd ((append_eq_left_iff _ _).1 h)
  · intro h
    have := congrArg String.data h
    simp [String.data_append] at this

theorem carriesEmptyDirection_move (d : String) (hd : d ≠ "") :
    carriesEmptyDirection ("move " ++ d) = false := by
  apply carriesEmptyDirection_of_ne
  · intro h
    have := congrArg String.data h
    simp [String.data_append] at this
  · exact fun h => hd ((append_eq_left_iff _ _).1 h)

theorem carriesEmptyDirection_split (o : String) :
    carriesEmptyDirection ("split " ++ o) = false := by
  apply carriesEmptyDirection_of_ne <;>
  · intro h
    have := congrArg String.data h
    simp [String.data_append] at this

theorem carriesEmptyDirection_layout (l : String) :
    carriesEmptyDirection ("layout " ++ l) = false := by
  apply carriesEmptyDirection_of_ne <;>
  · intro h
    have := congrArg String.data h
    simp [String.data_append] at this

theorem Merge_chain (client : Client) (d : Direction) (o : Orientation) (l : Layout) :
    (Merge client d o l).chain =
      ["focus " ++ d, "split " ++ o, "focus " ++ inverse d, "move " ++ d, "layout " ++ l] := by
  simp [Merge, RunChain, CmdChain.FocusContainer, CmdChain.SplitContainer,
    CmdChain.MoveContainer, CmdChain.ChangeLayout, CmdChain.Add, fmtSprintf_s, Init]

/-- C14. For each of the four directions and every orientation and layout,
`Merge` builds: focus in the direction, split, focus in the opposite direction,
move in the direction, set the layout; the opposite of left is right and the
opposite of up is down, and conversely. -/
theorem Merge_sequence (client : Client) (o : Orientation) (l : Layout) :
    (Merge client "left" o l).chain =
        ["focus left", "split " ++ o, "focus right", "move left", "layout " ++ l] ∧
      (Merge client "right" o l).chain =
        ["focus right", "split " ++ o, "focus left", "move right", "layout " ++ l] ∧
      (Merge client "up" o l).chain =
        ["focus up", "split " ++ o, "focus down", "move up", "layout " ++ l] ∧
      (Merge client "down" o l).chain =
        ["focus down", "split " ++ o, "focus up", "move down", "layout " ++ l] ∧
      (Merge client "left" "vertical" "tabbed").chain =
        ["focus left", "split vertical", "focus right", "move left", "layout tabbed"] := by
  refine ⟨?_, ?_, ?_, ?_, ?_⟩ <;> rw [Merge_chain] <;> rfl

/-- C15, at the direction `north`: one command only carries the empty direction
token, not two. -/
theorem Merge_north_not_two :
    "north" ∉ ["left", "right", "up", "down"] ∧
      (Merge desk "north" "vertical" "tabbed").chain.length = 5 ∧
      (Merge desk "north" "vertical" "tabbed").chain.countP carriesEmptyDirection ≠ 2 := by
  decide

/-- C15, as the code has it. For a direction other than left, right, up and
down, the third command of the five is `focus ` with the empty direction token;
it is the only one that carries the token when the direction is not the empty
text, and one of three (with the first and the fourth) when it is. -/
theorem Merge_unrecognized (client : Client) (d : Direction) (o : Orientation) (l : Layout)
    (h : d ≠ "left" ∧ d ≠ "right" ∧ d ≠ "up" ∧ d ≠ "down") :
    (Merge client d o l).chain =
        ["focus " ++ d, "split " ++ o, "focus ", "move " ++ d, "layout " ++ l] ∧
      (Merge client d o l).chain.countP carriesEmptyDirection = (if d = "" then 3 else 1) := by
  have hinv : inverse d = "" := by
    simp [inverse, Left, Right, Up, Down, h.1, h.2.1, h.2.2.1, h.2.2.2]
  have hchain : (Merge client d o l).chain =
      ["focus " ++ d, "split " ++ o, "focus ", "move " ++ d, "layout " ++ l] := by
    rw [Merge_chain, hinv]
    rfl
  refine ⟨hchain, ?_⟩
  rw [hchain]
  have hf : carriesEmptyDirection "focus " = true := by decide
  by_cases hd : d = ""
  · subst hd
    have hm : carriesEmptyDirection "move " = true := by decide
    simp [List.countP_cons, hf, hm, carriesEmptyDirection_split,
      carriesEmptyDirection_layout]
  · simp [List.countP_cons, hf, hd, carriesEmptyDirection_focus d hd,
      carriesEmptyDirection_move d hd, carriesEmptyDirection_split,
      carriesEmptyDirection_layout]

/-- C15, at the direction `north`. -/
theorem Merge_unrecognized_witness :
    (Merge desk "north" "vertical" "tabbed").chain =
        ["focus north", "split vertical", "focus ", "move north", "layout tabbed"] ∧
      (Merge desk "north" "vertical" "tabbed").chain.countP carriesEmptyDirection = 1 :=
  Merge_unrecognized desk "north" "vertical" "tabbed"
    ⟨by decide, by decide, by decide, by decide⟩


/-! ## Positions outside the active outputs -/

theorem FocusOutputHorizontalPosition_noop (long : LongSort) (client : Client)
    (position : String)
    (h : ParseInt position 64 = none ∨
      ∃ p, ParseInt position 64 = some p ∧ (client.outputs.length : Int) ≤ p) :
    FocusOutputHorizontalPosition long client position = .finished (returned [] "") := by
  unfold FocusOutputHorizontalPosition
  rcases h with h | ⟨p, hp, hle⟩
  · simp [h, Init]
  · simp [hp, Init, hle]

theorem FocusOutputHorizontalPosition_negative_index (long : LongSort) (client : Client)
    (position : String) (p : Int) (hp : ParseInt position 64 = some p) (hneg : p < 0) :
    FocusOutputHorizontalPosition long client position =
      .indexOutOfRange p client.outputs.length := by
  have hlen : ¬ ((client.outputs.length : Int) ≤ p) := by omega
  have hperm : (slicesSortFunc long client.outputs lenCmp).length = client.outputs.length :=
    (slicesSortFunc_perm long client.outputs).length_eq
  unfold FocusOutputHorizontalPosition
  simp [hp, Init, hlen, sliceAt, hneg, hperm]

/-- C12, evaluated on the docked laptop: two of the three outputs are active and
the position 2 is not below that number, yet the operation runs a chain, which
focuses the monitor `DP-1`; the bound the code tests is the number of all
outputs. -/
theorem FocusOutputHorizontalPosition_on_docked :
    (docked.outputs.filter (fun o => o.Active)).length = 2 ∧
      ParseInt "2" 64 = some 2 ∧
      (Init docked).outputs.length = 3 ∧
      ∀ long : LongSort, FocusOutputHorizontalPosition long docked "2" =
        .finished (RunChain ["focus output DP-1"] "") := by
  refine ⟨by decide, by decide, by decide, ?_⟩
  intro long
  rw [FocusOutputHorizontalPosition_short long docked "2" (by decide)]
  decide

/-- C17, evaluated on the two-screen desktop: the position `-1` parses to −1,
passes the test against the number of outputs, and the index expression is
reached with the index −1, outside the two outputs. -/
theorem FocusOutputHorizontalPosition_minus_one :
    ParseInt "-1" 64 = some (-1) ∧
      ∀ long : LongSort,
        FocusOutputHorizontalPosition long desk "-1" = .indexOutOfRange (-1) 2 := by
  refine ⟨by decide, ?_⟩
  intro long
  rw [FocusOutputHorizontalPosition_short long desk "-1" (by decide)]
  decide

/-! ## The listing and the current label -/

/-- C13, evaluated on the snapshot `2:web`, `misc`, `1:term`: the listing prints
`2:web`, `misc`, `1:term`, the snapshot order, and not `1:term`, `2:web`, `misc`.
The sort compares `misc` with `2:web` and `1:term` with `misc`, finds neither
pair out of order and moves nothing, although `1:term` is less than `2:web` for
`WS.Less` itself: the listing is not sorted by the comparison of the code. -/
theorem ListNames_mixed :
    (∀ long : LongSort, (ListNames long mixed).stdout = "2:web\nmisc\n1:term") ∧
      (∀ long : LongSort, (ListNames long mixed).stdout ≠ "1:term\n2:web\nmisc") ∧
      (∀ long : LongSort, sortSort long mixed.workspaces = mixed.workspaces) ∧
      WS.Less (mkWS (-1) "misc" "eDP-1" false false) (mkWS 2 "2:web" "eDP-1" true true) = false ∧
      WS.Less (mkWS 1 "1:term" "eDP-1" false false) (mkWS (-1) "misc" "eDP-1" false false) =
        false ∧
      WS.Less (mkWS 1 "1:term" "eDP-1" false false) (mkWS 2 "2:web" "eDP-1" true true) = true := by
  refine ⟨?_, ?_, ?_, by decide, by decide, by decide⟩
  · intro long
    rw [ListNames_short long mixed (by decide)]
    decide
  · intro long
    rw [ListNames_short long mixed (by decide)]
    decide
  · intro long
    unfold sortSort
    rw [pdqsort_short _ _ _ (by decide)]
    decide

theorem Current_verbatim (client : Client)
    (h : '%' ∉ (WSName (valueOf (CurrentWS (Init client)))).data) :
    (Current client).stdout = WSName (valueOf (CurrentWS (Init client))) := by
  unfold Current
  simp only [returned]
  exact fmtPrintf_verbatim _ h

theorem Current_unfocused (client : Client) (e : Err) (h : CurrentWS (Init client) = .error e) :
    (Current client).stdout = "" := by
  unfold Current
  simp only [returned, h, valueOf]
  decide

/-- C16, evaluated on the desktop whose focused workspace is `1:100%`: the label
is `100%`, and the text written is `100%!(NOVERB)`, the label taken as a format. -/
theorem Current_on_percent :
    CurrentWS (Init percent) = .ok (mkWS 1 "1:100%" "eDP-1" true true) ∧
      WSName (mkWS 1 "1:100%" "eDP-1" true true) = "100%" ∧
      (Current percent).stdout = "100%!(NOVERB)" ∧
      (Current percent).stdout ≠ "100%" :=
  ⟨rfl, by decide, by decide, by decide⟩

/-! ## Binding the current workspace onto itself -/

theorem Bind_canonical_other_ne (client : Client) (n : Int) (curr other : Workspace)
    (hcur : CurrentWS (Init client) = .ok curr)
    (hnum : Itoa curr.Num ≠ Itoa n)
    (hparse : ParseInt (Itoa n) 32 = some n)
    (hres : GetWS (Init client) (Itoa n) = .ok other) : other ≠ curr := by
  have _ := hcur
  have hother : other.Num = n := by
    simp only [GetWS, hparse, GetWSNum, GetWSNum_loop_eq] at hres
    obtain ⟨_, _, _, hw, _⟩ := (firstWhere_ok_iff _ _ _).1 hres
    simpa using hw
  rintro rfl
  exact hnum (by rw [hother])

/-- C18, evaluated on the two-screen desktop: the arguments `01` and `+1` differ
from the text `1` of the number of the focused `1:term`, resolve to `1:term`
itself, and so does the name `term`; with `01` the commands meant for the
displaced workspace are applied to `1:term`. -/
theorem Bind_onto_itself :
    CurrentWS (Init desk) = .ok (mkWS 1 "1:term" "eDP-1" true true) ∧
      Itoa (mkWS 1 "1:term" "eDP-1" true true).Num ≠ "01" ∧
      GetWS (Init desk) "01" = .ok (mkWS 1 "1:term" "eDP-1" true true) ∧
      GetWS (Init desk) "+1" = .ok (mkWS 1 "1:term" "eDP-1" true true) ∧
      GetWS (Init desk) "term" = .ok (mkWS 1 "1:term" "eDP-1" true true) ∧
      (Bind desk "01").chain =
        ["workspace 1:term", "rename workspace to 1:term", "workspace 1:term",
         "rename workspace to 01:term", "focus output eDP-1"] :=
  ⟨rfl, by decide, rfl, rfl, rfl, by decide⟩


theorem lessChars_iff (a b : List Char) : lessChars a b = true ↔ List.lt a b := by
  induction a generalizing b with
  | nil =>
    cases b with
    | nil =>
      simp only [lessChars, Bool.false_eq_true, false_iff]
      intro h
      cases h
    | cons b bs =>
      simp only [lessChars, true_iff]
      exact List.lt.nil b bs
  | cons a as ih =>
    cases b with
    | nil =>
      simp only [lessChars, Bool.false_eq_true, false_iff]
      intro h
      cases h
    | cons b bs =>
      have hab : a.toNat < b.toNat ↔ a < b := Iff.rfl
      have hba : b.toNat < a.toNat ↔ b < a := Iff.rfl
      simp only [lessChars]
      constructor
      · intro h
        split at h
        · rename_i h1
          exact List.lt.head _ _ (hab.1 h1)
        · rename_i h1
          split at h
          · simp at h
          · rename_i h2
            exact List.lt.tail (fun e => h1 (hab.2 e)) (fun e => h2 (hba.2 e)) ((ih bs).1 h)
      · intro h
        cases h with
        | head _ _ h => simp [hab.2 h]
        | tail h1 h2 h3 =>
          have e1 : ¬ a.toNat < b.toNat := fun e => h1 (hab.1 e)
          have e2 : ¬ b.toNat < a.toNat := fun e => h2 (hba.1 e)
          simp [e1, e2, (ih bs).2 h3]

/-- The comparison `stringLess` is the order of strings. -/
theorem stringLess_iff (a b : String) : stringLess a b = true ↔ a < b := by
  rw [String.lt_iff_toList_lt]
  exact (lessChars_iff a.data b.data).trans (List.lt_iff_lex_lt _ _)


/-! ## Where `Show` ends -/

theorem isWorkspaceCmd_workspace (name : String) : isWorkspaceCmd ("workspace " ++ name) = true := by
  unfold isWorkspaceCmd
  rw [hasPrefix_iff, String.data_append]
  exact List.prefix_append _ _

theorem isWorkspaceCmd_move (output : String) :
    isWorkspaceCmd ("move workspace to output " ++ output) = false := by
  unfold isWorkspaceCmd
  rw [String.data_append]
  rfl

theorem isWorkspaceCmd_focus (output : String) :
    isWorkspaceCmd ("focus output " ++ output) = false := by
  unfold isWorkspaceCmd
  rw [String.data_append]
  rfl

theorem Show_chain_resolved (client : Client) (wsName : String) (target curr : Workspace)
    (htgt : GetWS (Init client) wsName = .ok target)
    (hcur : valueOf (CurrentWS (Init client)) = curr) :
    (Show client wsName).chain =
      if curr = target then []
      else if curr.Visible && target.Visible then
        ["move workspace to output " ++ target.Output, "workspace " ++ target.Name,
         "move workspace to output " ++ curr.Output, "focus output " ++ curr.Output,
         "focus output " ++ curr.Output]
      else if target.Output ≠ curr.Output then
        ["workspace " ++ target.Name, "move workspace to output " ++ curr.Output,
         "workspace " ++ curr.Name, "workspace " ++ target.Name,
         "focus output " ++ curr.Output]
      else
        ["workspace " ++ target.Name, "workspace " ++ curr.Name, "workspace " ++ target.Name,
         "focus output " ++ curr.Output] := by
  have hchain : (Init client).chain = [] := rfl
  unfold Show
  simp only [htgt, hcur, hchain]
  by_cases heq : curr = target
  · simp [heq, returned]
  · by_cases hv : (curr.Visible && target.Visible) = true
    · simp [heq, hv, RunChain, CmdChain.SwapWS, CmdChain.FocusOutput, CmdChain.ShowWS,
        CmdChain.MoveWSToOuput, CmdChain.Add]
    · by_cases ho : target.Output = curr.Output <;>
        simp [heq, hv, ho, RunChain, CmdChain.ShowWSOnOutput, CmdChain.FocusOutput,
          CmdChain.ShowWS, CmdChain.MoveWSToOuput, CmdChain.Add]

/-- C19. Whenever `Show` builds a chain that is not empty: if the argument
resolves to a target, the last command of the form `workspace ...` shows the
target and the last command of the chain focuses the output of the focused
workspace (of the zero workspace when none is focused); if the argument does not
resolve, the last command of the form `workspace ...` shows the argument. -/
theorem Show_ends_on_target (client : Client) (wsName : String)
    (hne : (Show client wsName).chain ≠ []) :
    (∀ target, GetWS (Init client) wsName = .ok target →
        lastWorkspaceCmd (Show client wsName).chain = some ("workspace " ++ target.Name) ∧
          (Show client wsName).chain.getLast? =
            some ("focus output " ++ (valueOf (CurrentWS (Init client))).Output)) ∧
      ((∃ e, GetWS (Init client) wsName = .error e) →
        lastWorkspaceCmd (Show client wsName).chain = some ("workspace " ++ wsName)) := by
  constructor
  · intro target htgt
    rw [Show_chain_resolved client wsName target _ htgt rfl] at hne ⊢
    generalize valueOf (CurrentWS (Init client)) = curr at hne ⊢
    by_cases heq : curr = target
    · simp [heq] at hne
    · by_cases hv : (curr.Visible && target.Visible) = true
      · simp only [heq, hv, if_false, if_true]
        simp [lastWorkspaceCmd, List.filter_cons, isWorkspaceCmd_workspace,
          isWorkspaceCmd_move, isWorkspaceCmd_focus]
      · by_cases ho : target.Output = curr.Output
        · simp only [heq, hv, ho, if_false, ne_eq, not_true_eq_false]
          simp [lastWorkspaceCmd, List.filter_cons, isWorkspaceCmd_workspace,
            isWorkspaceCmd_focus]
        · simp only [heq, hv, ho, if_false, ne_eq, not_false_eq_true, if_true]
          simp [lastWorkspaceCmd, List.filter_cons, isWorkspaceCmd_workspace,
            isWorkspaceCmd_move, isWorkspaceCmd_focus]
  · rintro ⟨e, he⟩
    unfold Show
    simp only [he]
    simp [lastWorkspaceCmd, RunChain, CmdChain.ShowWS, CmdChain.Add, Init,
      List.filter_cons, isWorkspaceCmd_workspace]

/-- C19, at the two-screen desktop: showing the hidden `4:doc`. -/
theorem Show_ends_on_target_witness :
    (Show desk "doc").chain ≠ [] ∧
      lastWorkspaceCmd (Show desk "doc").chain = some "workspace 4:doc" ∧
      (Show desk "doc").chain.getLast? = some "focus output eDP-1" :=
  ⟨by decide,
    ((Show_ends_on_target desk "doc" (by decide)).1 (mkWS 4 "4:doc" "HDMI-1" false false) rfl)⟩

/-! ## The round trip of `Rename` and the label -/

theorem WSName_label_aux (ws : Workspace) :
    (':' ∉ ws.Name.data → WSName ws = ws.Name) ∧
      (∀ a b : List Char, ':' ∉ a → ':' ∉ b → ws.Name.data = a ++ ':' :: b →
        WSName ws = String.mk b) := by
  refine ⟨?_, ?_⟩
  · intro h
    simp [WSName, stringsSplit, splitChars_of_not_mem _ _ h]
  · intro a b ha hb hname
    simp [WSName, stringsSplit, hname, splitChars_append_sep _ _ _ ha,
      splitChars_of_not_mem _ _ hb]

theorem Itoa_no_colon (n : Int) : ':' ∉ (Itoa n).data := by
  have hdig : ∀ m : Nat, ':' ∉ Nat.toDigits 10 m := fun m h => by
    have := toDigitsCore_isDigit (m + 1) m ':' h
    exact absurd this (by decide)
  cases n with
  | ofNat m => exact hdig m
  | negSucc m =>
    intro h
    have h2 : ':' ∈ '-' :: Nat.toDigits 10 (m + 1) := h
    rcases List.mem_cons.1 h2 with h3 | h3
    · exact absurd h3 (by decide)
    · exact hdig _ h3

/-- With a focused workspace, numbered or not, and a new name without a colon,
the single command of `Rename` renames to a name whose label is the new name. -/
theorem Rename_label_roundtrip (client : Client) (newName : String) (ws : Workspace)
    (hcur : CurrentWS (Init client) = .ok ws)
    (hcolon : ':' ∉ newName.data) :
    ∃ N, (Rename client newName).chain = ["rename workspace to " ++ N] ∧
      ∀ w : Workspace, w.Name = N → WSName w = newName := by
  by_cases hn : ws.Num = -1
  · refine ⟨newName, ?_, ?_⟩
    · unfold Rename
      simp only [hcur, valueOf]
      simp [hn, RunChain, CmdChain.RenameWS, CmdChain.Add, Init]
    · intro w hw
      have h := (WSName_label_aux w).1
      rw [hw] at h
      exact h hcolon
  · refine ⟨Itoa ws.Num ++ ":" ++ newName, ?_, ?_⟩
    · unfold Rename
      simp only [hcur, valueOf]
      simp [hn, RunChain, CmdChain.RenameWS, CmdChain.Add, Init]
    · intro w hw
      have h := (WSName_label_aux w).2 (Itoa ws.Num).data newName.data (Itoa_no_colon _) hcolon
        (by rw [hw]; simp [String.data_append])
      rw [h]

theorem CurrentWS_loop_focused (l : List Workspace) (cur : Workspace)
    (h : CurrentWS.loop l = .ok cur) : cur.Focused = true := by
  induction l with
  | nil => simp [CurrentWS.loop] at h
  | cons a l ih =>
    simp only [CurrentWS.loop] at h
    split at h
    · rename_i ha
      rw [← Except.ok.inj h]
      exact ha
    · exact ih h

theorem CurrentWS_loop_map (l : List Workspace) (cur new : Workspace)
    (hnew : new.Focused = true) (h : CurrentWS.loop l = .ok cur) :
    CurrentWS.loop (l.map (fun ws => if ws = cur then new else ws)) = .ok new := by
  have hcur := CurrentWS_loop_focused l cur h
  induction l with
  | nil => simp [CurrentWS.loop] at h
  | cons a l ih =>
    simp only [CurrentWS.loop] at h
    by_cases ha : a.Focused = true
    · rw [if_pos ha] at h
      have hac : a = cur := Except.ok.inj h
      simp [CurrentWS.loop, hac, hnew]
    · rw [if_neg ha] at h
      have hac : ¬ a = cur := fun e => ha (e ▸ hcur)
      simp only [List.map_cons, hac, if_false, CurrentWS.loop, ha]
      exact ih h

/-- After the rename, `Current` prints the label of the new name, taken as a
format. -/
theorem Current_afterRename (client : Client) (name : String) (num : Int) (cur : Workspace)
    (hcur : CurrentWS (Init client) = .ok cur) :
    (Current (afterRename client name num)).stdout =
      fmtPrintf (WSName { cur with Name := name, Num := num }) := by
  have hloop : CurrentWS.loop client.workspaces = .ok cur := hcur
  have hfoc := CurrentWS_loop_focused _ _ hloop
  have hmap := CurrentWS_loop_map client.workspaces cur { cur with Name := name, Num := num }
    hfoc hloop
  unfold Current afterRename
  simp only [hloop, CurrentWS, Init, hmap, valueOf, returned]

/-- The round trip holds for new names without colon and without `%`: after the
rename, `Current` prints the new name. -/
theorem Current_after_Rename (client : Client) (newName : String) (num : Int) (ws : Workspace)
    (hcur : CurrentWS (Init client) = .ok ws)
    (hcolon : ':' ∉ newName.data) (hpct : '%' ∉ newName.data) :
    ∃ N, (Rename client newName).chain = ["rename workspace to " ++ N] ∧
      (Current (afterRename client N num)).stdout = newName := by
  obtain ⟨N, hchain, hlabel⟩ := Rename_label_roundtrip client newName ws hcur hcolon
  refine ⟨N, hchain, ?_⟩
  rw [Current_afterRename client N num ws hcur, hlabel _ rfl]
  exact fmtPrintf_verbatim _ hpct

/-- C20, evaluated on the two-screen desktop with the new name `100%`, which has
no colon: `Rename` builds the one command `rename workspace to 1:100%`, and the
label of `1:100%` is `100%`; but once the compositor has renamed the focused
workspace, `Current` writes `100%!(NOVERB)`, not the name that was typed. -/
theorem Rename_then_Current_percent :
    ':' ∉ "100%".data ∧
      (Rename desk "100%").chain = ["rename workspace to 1:100%"] ∧
      (∀ w : Workspace, w.Name = "1:100%" → WSName w = "100%") ∧
      (∀ num : Int, (Current (afterRename desk "1:100%" num)).stdout = "100%!(NOVERB)") ∧
      (∀ num : Int, (Current (afterRename desk "1:100%" num)).stdout ≠ "100%") := by
  have hcur : CurrentWS (Init desk) = .ok (mkWS 1 "1:term" "eDP-1" true true) := rfl
  have hlabel : ∀ w : Workspace, w.Name = "1:100%" → WSName w = "100%" := by
    intro w hw
    have h := (WSName_label_aux w).2 ['1'] ['1', '0', '0', '%'] (by decide) (by decide)
      (by rw [hw]; rfl)
    rw [h]
  have hout : ∀ num : Int,
      (Current (afterRename desk "1:100%" num)).stdout = "100%!(NOVERB)" := by
    intro num
    rw [Current_afterRename desk "1:100%" num _ hcur, hlabel _ rfl]
    decide
  refine ⟨by decide, by decide, hlabel, hout, ?_⟩
  intro num
  rw [hout num]
  decide

end X3
